import Mathlib

/-!
# Luma updater: orchestration, backup manager, payload migration and choice screen

A shallow embedding of `source/main.cpp` and `source/lumautils.cpp`.

Conventions of the embedding.

* A `std::string` is a `List Char` (`Str`); file contents are `List UInt8` (`Bytes`).
* Persistent storage is an association list from full path to contents; the order of the
  list is the order in which a directory enumeration returns the entries.  Only regular
  files are stored (no sub-directory entries).  Two path strings name the same file when
  they are equal once every run of slashes is reduced to one slash (`resolve`).
* Every storage primitive may fail for a reason the program cannot see (I/O error, target
  already present, card removed...).  `World.faults` holds the outcome the device will
  give to the next primitives, one flag per call (`false` forces a failure, an empty list
  means no forced failure).  A primitive also fails when its own precondition fails
  (renaming or reading a file that is not there).
* `World.log` records every primitive and collaborator call together with its outcome,
  oldest first.  Console output and cursor positioning are not part of the model.
* `int` values are mathematical integers (signed overflow is undefined behaviour in C++):
  in every run from the initial state the cursor stays within one unit of the range of the
  menu entries, whose number is bounded by the memory of the device, far below `INT_MAX`.
* A key mask is modelled by the outcomes of the four tests the program makes on it.
* An out-of-bounds vector access, a null pointer dereference, a division by zero and a
  loop that never exits are undefined behaviour; the functions that can reach one return
  `Except Fault _`.
-/

namespace LumaUpdate

/-! ## Storage -/

abbrev Str := List Char

abbrev Bytes := List UInt8

abbrev Files := List (Str × Bytes)

/-- Path resolution of the storage layer: a run of slashes counts as one slash, so that
`//luma/payload.bin` and `/luma/payload.bin` name the same file. -/
def resolve : Str → Str
  | [] => []
  | c :: rest =>
    if c = '/' ∧ rest.head? = some '/' then resolve rest else c :: resolve rest

/-- Contents of the file that `path` names, if there is one. -/
def readFile : Files → Str → Option Bytes
  | [], _ => none
  | (q, c) :: fs, path => if resolve q = resolve path then some c else readFile fs path

/-- Storage without the file that `path` names. -/
def eraseFile : Files → Str → Files
  | [], _ => []
  | (q, c) :: fs, path =>
    if resolve q = resolve path then eraseFile fs path else (q, c) :: eraseFile fs path

/-- Storage in which the file that `path` names holds exactly `data`. -/
def putFile (fs : Files) (path : Str) (data : Bytes) : Files :=
  (path, data) :: eraseFile fs path

/-- One call made by the program to the storage layer or to a collaborator. -/
inductive Event where
  | openRead (path : Str) (ok : Bool)
  | openWrite (path : Str) (ok : Bool)
  | write (path : Str) (data : Bytes) (ok : Bool)
  | rename (old new : Str) (ok : Bool)
  | remove (path : Str) (ok : Bool)
  | openArchive (ok : Bool)
  | openDirectory (ok : Bool)
  | fetch (ok : Bool)
  | patch (ok : Bool)
  | arnMigrate (ok : Bool)
  | reboot
  deriving DecidableEq, Repr

/-- Outcome recorded with an event. -/
def Event.ok : Event → Bool
  | .openRead _ ok => ok
  | .openWrite _ ok => ok
  | .write _ _ ok => ok
  | .rename _ _ ok => ok
  | .remove _ ok => ok
  | .openArchive ok => ok
  | .openDirectory ok => ok
  | .fetch ok => ok
  | .patch ok => ok
  | .arnMigrate ok => ok
  | .reboot => true

structure World where
  files : Files
  faults : List Bool
  log : List Event
  deriving DecidableEq, Repr

/-- Outcome the device gives to the next primitive call. -/
def World.nextOk (w : World) : Bool := w.faults.headD true

/-- Events recorded after the world `w0` was observed. -/
def World.since (w0 w : World) : List Event := w.log.drop w0.log.length

/-- The world in which one more call is recorded. -/
def World.record (w : World) (e : Event) : World :=
  { files := w.files, faults := w.faults, log := w.log ++ [e] }

/-- The C library call `std::rename(old, new)`; the result is `true` when it returns 0.  On
success the contents move to `new` (replacing what was there) and `old` is gone; on
failure storage is unchanged. -/
def stdRename (old new : Str) (w : World) : Bool × World :=
  match w.nextOk, readFile w.files old with
  | true, some c =>
    (true, { files := putFile (eraseFile w.files old) new c,
             faults := w.faults.tail,
             log := w.log ++ [Event.rename old new true] })
  | _, _ =>
    (false, { files := w.files, faults := w.faults.tail,
              log := w.log ++ [Event.rename old new false] })

/-- The C library call `std::remove(path)`; the result is `true` when it returns 0. -/
def stdRemove (path : Str) (w : World) : Bool × World :=
  match w.nextOk, readFile w.files path with
  | true, some _ =>
    (true, { files := eraseFile w.files path, faults := w.faults.tail,
             log := w.log ++ [Event.remove path true] })
  | _, _ =>
    (false, { files := w.files, faults := w.faults.tail,
              log := w.log ++ [Event.remove path false] })

/-- Construction of a `std::ifstream` on `path`; the result is its `good()`. -/
def openRead (path : Str) (w : World) : Bool × World :=
  let ok := w.nextOk && (readFile w.files path).isSome
  (ok, { files := w.files, faults := w.faults.tail,
         log := w.log ++ [Event.openRead path ok] })

/-- Construction of a `std::ofstream` on `path`; the result is its `good()`.  A successful
open creates the file or truncates it. -/
def openWrite (path : Str) (w : World) : Bool × World :=
  let ok := w.nextOk
  (ok, { files := if ok then putFile w.files path [] else w.files,
         faults := w.faults.tail,
         log := w.log ++ [Event.openWrite path ok] })

/-- Insertion of `data` into the `std::ofstream` on `path`; `isOpen` tells whether the
stream was opened successfully (a stream that is not open drops the data). -/
def streamWrite (isOpen : Bool) (path : Str) (data : Bytes) (w : World) : World :=
  { files := if isOpen then putFile w.files path ((readFile w.files path).getD [] ++ data)
             else w.files,
    faults := w.faults,
    log := w.log ++ [Event.write path data isOpen] }

/-- Modelled from the spec: `fileExists` is declared in `utils.h`, which is not among the
sources; it reports whether a file currently exists at the path. -/
def fileExists (path : Str) (w : World) : Bool := (readFile w.files path).isSome

/-! ## Release data and session arguments (`main.cpp`, lines 21-60) -/

/-- Modelled from the spec: `ReleaseVer` is declared in `libs.h`, which is not among the
sources; a version option has a friendly display name, a machine version identifier, a
download locator and a prerelease flag. -/
structure ReleaseVer where
  friendlyName : Str
  name : Str
  url : Str
  prerelease : Bool
  deriving DecidableEq, Repr

/-- Modelled from the spec: `ReleaseInfo` is declared in `libs.h`, which is not among the
sources; a catalog has the name of its latest build and a list of version options. -/
structure ReleaseInfo where
  name : Str
  versions : List ReleaseVer
  deriving DecidableEq, Repr

inductive UpdateState where
  | UpdateConfirmationScreen
  | Updating
  | UpdateComplete
  | UpdateFailed
  | UpdateAborted
  | Restoring
  | RestoreComplete
  | RestoreFailed
  deriving DecidableEq, Repr

inductive ChoiceType where
  | NoChoice
  | UpdatePayload
  | RestoreBackup
  deriving DecidableEq, Repr

structure UpdateChoice where
  type : ChoiceType
  chosenVersion : ReleaseVer
  isHourly : Bool
  deriving DecidableEq, Repr

/-- A value-initialised `ReleaseVer`, as left by `UpdateChoice{ NoChoice }`. -/
def ReleaseVer.empty : ReleaseVer :=
  { friendlyName := [], name := [], url := [], prerelease := false }

structure UpdateArgs where
  currentVersion : Str
  backupVersion : Str
  migrateARN : Bool
  backupExists : Bool
  payloadPath : Str
  backupExisting : Bool
  stable : Option ReleaseInfo
  hourly : Option ReleaseInfo
  choice : UpdateChoice
  deriving DecidableEq, Repr

/-! ## Backup manager (`main.cpp`, lines 192-212 and 275-291) -/

def backupA9LH (payloadName : Str) (w : World) : Bool × World :=
  let original := openRead payloadName w
  if original.1 = false then (false, original.2)
  else
    let backupName := payloadName ++ ".bak".toList
    let target := openWrite backupName original.2
    if target.1 = false then (false, target.2)
    else
      (true, streamWrite true backupName
        ((readFile target.2.files payloadName).getD []) target.2)

def restore (args : UpdateArgs) (w : World) : Bool × World :=
  let a := stdRename args.payloadPath (args.payloadPath ++ ".broken".toList) w
  if a.1 = false then (false, a.2)
  else
    let b := stdRename (args.payloadPath ++ ".bak".toList) args.payloadPath a.2
    if b.1 = false then (false, b.2)
    else
      let c := stdRemove (args.payloadPath ++ ".broken".toList) b.2
      (true, c.2)

/-! ## Payload migration (`lumautils.cpp`) -/

def PayloadPath : Str := "/luma/payloads/".toList

/-- Names of the directory entries of `/luma/payloads`, in enumeration order: the stored
files whose resolved path is the directory followed by a non-empty name without a slash. -/
def directoryEntries (fs : Files) : List Str :=
  fs.filterMap fun e =>
    if PayloadPath <+: resolve e.1 ∧ (resolve e.1).drop PayloadPath.length ≠ [] ∧
        '/' ∉ (resolve e.1).drop PayloadPath.length then
      some ((resolve e.1).drop PayloadPath.length)
    else none

/-- Conversion of an entry name to a `std::string` (lines 40-46): every code unit is
reduced with `% 0xff` and the string ends at the first zero.  A character of a stored path
stands for one code unit of the entry name. -/
def toName8 (name : Str) : Str :=
  (name.map fun c => Char.ofNat (c.toNat % 0xff)).takeWhile fun c => c ≠ Char.ofNat 0

/-- The system call `FSUSER_OpenArchive`; the result is `true` when it returns 0. -/
def openArchive (w : World) : Bool × World :=
  (w.nextOk, { files := w.files, faults := w.faults.tail,
               log := w.log ++ [Event.openArchive w.nextOk] })

/-- The system call `FSUSER_OpenDirectory`; the result is `true` when it returns 0. -/
def openDirectory (w : World) : Bool × World :=
  (w.nextOk, { files := w.files, faults := w.faults.tail,
               log := w.log ++ [Event.openDirectory w.nextOk] })

def listPayloads (w : World) : List Str × World :=
  let archive := openArchive w
  if archive.1 = false then ([], archive.2)
  else
    let directory := openDirectory archive.2
    if directory.1 = false then ([], directory.2)
    else ((directoryEntries directory.2.files).map toName8, directory.2)

def hasPrefix (name pfx : Str) : Bool :=
  if name.length < pfx.length then false
  else name.take pfx.length = pfx

def findAndRename (oldName newName : Str) (w : World) : Bool × World :=
  let oldPath := PayloadPath ++ oldName
  let newPath := PayloadPath ++ newName
  if fileExists oldPath w then stdRename oldPath newPath w
  else (true, w)

def findAndRenamePrefix (files : List Str) (oldPfx newPfx : Str) (w : World) :
    Bool × World :=
  match files with
  | [] => (true, w)
  | file :: rest =>
    if hasPrefix file oldPfx then
      findAndRenamePrefix rest oldPfx newPfx
        (stdRename (PayloadPath ++ file)
          (PayloadPath ++ newPfx ++ file.drop oldPfx.length) w).2
    else findAndRenamePrefix rest oldPfx newPfx w

def lumaMigratePayloads (w : World) : Bool × World :=
  let first := findAndRename "default.bin".toList "def.bin".toList w
  if first.1 = false then (false, first.2)
  else
    let files := listPayloads first.2
    let second := findAndRenamePrefix files.1 "def".toList "start".toList files.2
    if second.1 = false then (false, second.2)
    else (true, second.2)

/-! ## Update (`main.cpp`, lines 214-273) -/

/-- Modelled from the spec: the macro `PAYLOADPATH` is defined in a header that is not
among the sources; the default install path is `/luma/payload.bin`, and the code compares
the install path with `"/" + PAYLOADPATH`. -/
def PAYLOADPATH : Str := "luma/payload.bin".toList

/-- Result of `releaseGetPayload`: the return value and the three out-parameters. -/
structure PayloadResult where
  ret : Bool
  payloadData : Bytes
  offset : Nat
  payloadSize : Nat
  deriving DecidableEq, Repr

/-- The collaborators called by `update`, whose code is not part of the core: the release
fetch, the path patch (it rewrites the buffer it is given in place) and the AuReiNand
migration (it acts on storage).  Any outcome is possible. -/
structure Env where
  releaseGetPayload : ReleaseVer → Bool → PayloadResult
  pathchange : Bytes → Nat → Str → Bool × Bytes
  arnMigrate : Files → Bool × Files

/-- Lines 217-229: the backup of the local file, when requested and when it exists. -/
def backupStep (args : UpdateArgs) (w : World) : Bool × World :=
  if args.backupExisting = false then (true, w)
  else if fileExists args.payloadPath w = false then (true, w)
  else backupA9LH args.payloadPath w

/-- Lines 244-251: the path patch, applied to the fetched buffer when the install path is
not the default one.  The result holds the verdict and the buffer `payloadData + offset`. -/
def patchStep (env : Env) (args : UpdateArgs) (got : PayloadResult) (w : World) :
    Bool × Bytes × World :=
  if args.payloadPath ≠ "/".toList ++ PAYLOADPATH then
    let res := env.pathchange (got.payloadData.drop got.offset) got.payloadSize
      args.payloadPath
    (res.1, res.2, w.record (Event.patch res.1))
  else (true, got.payloadData.drop got.offset, w)

/-- Lines 253-259: the AuReiNand migration, when the installed version needs it. -/
def arnStep (env : Env) (args : UpdateArgs) (w : World) : Bool × World :=
  if args.migrateARN then
    let arn := env.arnMigrate w.files
    (arn.1, { w with files := arn.2 }.record (Event.arnMigrate arn.1))
  else (true, w)

/-- Path given to the `std::ofstream` of the final write (line 266). -/
def a9lhfilePath (args : UpdateArgs) : Str := "/".toList ++ args.payloadPath

def update (env : Env) (args : UpdateArgs) (w : World) : Bool × World :=
  let backup := backupStep args w
  if backup.1 = false then (false, backup.2)
  else
    let got := env.releaseGetPayload args.choice.chosenVersion args.choice.isHourly
    let w1 := backup.2.record (Event.fetch got.ret)
    if got.ret = false then (false, w1)
    else
      let patched := patchStep env args got w1
      if patched.1 = false then (false, patched.2.2)
      else
        let migrated := arnStep env args patched.2.2
        if migrated.1 = false then (false, migrated.2)
        else
          let w4 := (lumaMigratePayloads migrated.2).2
          let a9lhfile := openWrite (a9lhfilePath args) w4
          (true, streamWrite a9lhfile.1 (a9lhfilePath args)
            (patched.2.1.take got.payloadSize) a9lhfile.2)

/-! ## Choice screen (`main.cpp`, lines 62-190) -/

inductive Fault where
  | nullDeref
  | outOfBounds (index : Int) (size : Nat)
  | divisionByZero
  | endlessLoop
  deriving DecidableEq, Repr

/-- The tests made on a key mask: `up` is `mask & KEY_UP`, `down` is `mask & KEY_DOWN`, `a`
is `mask & KEY_A` and `start` is `mask & KEY_START`. -/
structure Keys where
  up : Bool
  down : Bool
  a : Bool
  start : Bool
  deriving DecidableEq, Repr

/-- Input state: `down` is what `hidKeysDown()` returns now, `apt` holds the results of the
coming calls of `aptMainLoop()` (none left: the applet is closing, the call returns
false) and `scans` the keys that the coming calls of `hidScanInput()` will latch. -/
structure Hid where
  down : Keys
  apt : List Bool
  scans : List Keys
  deriving DecidableEq, Repr

def noKeys : Keys := { up := false, down := false, a := false, start := false }

/-- The macro `WAIT_START` (line 13). -/
def waitStart : List Bool → Keys → List Keys → Hid
  | [], down, scans => { down := down, apt := [], scans := scans }
  | running :: apt, down, scans =>
    if running = true ∧ down.start = false then
      waitStart apt (scans.headD noKeys) scans.tail
    else { down := down, apt := apt, scans := scans }

def INT_MAX : Int := 2147483647

/-- The global `redraw` and the function-local statics of `drawConfirmationScreen`. -/
structure Ui where
  redraw : Bool
  partialredraw : Bool
  selected : Int
  hourlyOptionStart : Int
  extraOptionStart : Int
  deriving DecidableEq, Repr

/-- Values of the statics before the first call; `redraw` is set by `main` (line 405). -/
def Ui.initial : Ui :=
  { redraw := true, partialredraw := false, selected := 0,
    hourlyOptionStart := INT_MAX, extraOptionStart := INT_MAX }

/-- Dereference of a pointer that may be `nullptr`. -/
def deref {α : Type} : Option α → Except Fault α
  | some x => .ok x
  | none => .error .nullDeref

/-- The access `v[i]` of a `std::vector` with an `int` index. -/
def vectorAt {α : Type} (v : List α) (i : Int) : Except Fault α :=
  if 0 ≤ i then
    match v[i.toNat]? with
    | some x => .ok x
    | none => .error (.outOfBounds i v.length)
  else .error (.outOfBounds i v.length)

structure Drawn where
  choice : UpdateChoice
  ui : Ui
  hid : Hid
  deriving DecidableEq, Repr

def noChoice : UpdateChoice :=
  { type := .NoChoice, chosenVersion := ReleaseVer.empty, isHourly := false }

/-- Lines 71-79: cursor movement. -/
def moveCursor (keydown : Keys) (ui : Ui) : Ui :=
  if keydown.up = true ∨ keydown.down = true then
    let ui1 := { ui with partialredraw := true }
    let ui2 := if keydown.up then { ui1 with selected := ui1.selected - 1 } else ui1
    if keydown.down then { ui2 with selected := ui2.selected + 1 } else ui2
  else ui

/-- Lines 81-105: the mapping of the cursor to a choice when `KEY_A` is down. -/
def confirm (args : UpdateArgs) (stable : ReleaseInfo) (ui : Ui) (hid : Hid) :
    Except Fault Drawn :=
  if ui.selected < ui.hourlyOptionStart then do
    let version ← vectorAt stable.versions ui.selected
    pure { choice := { type := .UpdatePayload, chosenVersion := version, isHourly := false },
           ui := ui, hid := hid }
  else if ui.selected < ui.extraOptionStart then do
    let hourly ← deref args.hourly
    let version ← vectorAt hourly.versions (ui.selected - ui.hourlyOptionStart)
    pure { choice := { type := .UpdatePayload, chosenVersion := version, isHourly := true },
           ui := ui, hid := hid }
  else
    let extraOptionID := ui.selected - ui.extraOptionStart
    let extraOptionID := if args.backupExists = false then extraOptionID + 1 else extraOptionID
    if extraOptionID = 0 then
      pure { choice := { type := .RestoreBackup, chosenVersion := ReleaseVer.empty,
                         isHourly := false },
             ui := ui, hid := hid }
    else
      pure { choice := noChoice,
             ui := { ui with redraw := true, selected := 0 },
             hid := waitStart hid.apt hid.down hid.scans }

/-- Line 159: `while (selected < 0) selected += optionCount;`.  The natural number bounds
the number of iterations and is set to `-selected` by the caller: with a positive
`optionCount` that many iterations bring the cursor to zero or above, and with
`optionCount ≤ 0` a negative cursor stays negative for ever. -/
def wrapLoop (optionCount : Int) : Nat → Int → Except Fault Int
  | 0, selected => if selected < 0 then .error .endlessLoop else .ok selected
  | fuel + 1, selected =>
    if selected < 0 then wrapLoop optionCount fuel (selected + optionCount)
    else .ok selected

/-- Line 156. -/
def optionCount (args : UpdateArgs) (stable : ReleaseInfo) : Int :=
  (stable.versions.length : Int)
    + (match args.hourly with
       | some hourly => (hourly.versions.length : Int)
       | none => 0)
    + (if args.backupExists then 1 else 0)

/-- Lines 156-188: cursor wrap and the option offsets of the drawn list. -/
def layout (args : UpdateArgs) (stable : ReleaseInfo) (ui : Ui) : Except Fault Ui := do
  let count := optionCount args stable
  let wrapped ← wrapLoop count (-ui.selected).toNat ui.selected
  if count = 0 then throw .divisionByZero
  let selected := wrapped.tmod count
  let curOption : Int := stable.versions.length
  let hourlyOptionStart := curOption
  let curOption : Int :=
    match args.hourly with
    | some hourly => curOption + hourly.versions.length
    | none => curOption
  let extraOptionStart := curOption
  pure { redraw := false, partialredraw := false, selected := selected,
         hourlyOptionStart := hourlyOptionStart, extraOptionStart := extraOptionStart }

set_option linter.unusedVariables false in
def drawConfirmationScreen (args : UpdateArgs) (usingConfig : Bool) (ui : Ui) (hid : Hid) :
    Except Fault Drawn := do
  let stable ← deref args.stable
  let ui := moveCursor hid.down ui
  if hid.down.a then confirm args stable ui hid
  else if ui.redraw = false ∧ ui.partialredraw = false then
    pure { choice := noChoice, ui := ui, hid := hid }
  else do
    let ui ← layout args stable ui
    pure { choice := noChoice, ui := ui, hid := hid }

/-! ## Orchestrator (`main.cpp`, lines 349-356 and 414-505) -/

/-- Lines 353-356: add the initial slash to the payload path, if missing. -/
def normalisePayloadPath (payloadPath : Str) : Str :=
  match payloadPath with
  | '/' :: _ => payloadPath
  | _ => "/".toList ++ payloadPath

structure Machine where
  state : UpdateState
  updateArgs : UpdateArgs
  usingConfig : Bool
  ui : Ui
  hid : Hid
  world : World
  deriving DecidableEq, Repr

/-- Lines 447-451 and the like: a terminal screen is printed once. -/
def printOnce (m : Machine) : Machine :=
  if m.ui.redraw then { m with ui := { m.ui with redraw := false } } else m

/-- Lines 463-468: `START` reboots the console from a completion screen. -/
def rebootOnStart (m : Machine) : Machine :=
  if m.hid.down.start then
    { m with world := m.world.record Event.reboot }
  else m

/-- The `switch (state)` of the main loop, run once per frame with `kDown = hid.down`. -/
def mainStep (env : Env) (m : Machine) : Except Fault Machine :=
  match m.state with
  | .UpdateConfirmationScreen =>
    if m.hid.down.start then
      pure { m with state := .UpdateAborted, ui := { m.ui with redraw := true } }
    else do
      let drawn ← drawConfirmationScreen m.updateArgs m.usingConfig m.ui m.hid
      let m1 : Machine :=
        { m with updateArgs := { m.updateArgs with choice := drawn.choice },
                 ui := drawn.ui, hid := drawn.hid }
      match drawn.choice.type with
      | .UpdatePayload =>
        pure { m1 with state := .Updating, ui := { m1.ui with redraw := true } }
      | .RestoreBackup =>
        pure { m1 with state := .Restoring, ui := { m1.ui with redraw := true } }
      | .NoChoice => pure m1
  | .Updating =>
    let done := update env m.updateArgs m.world
    pure { m with state := if done.1 then .UpdateComplete else .UpdateFailed,
                  ui := { m.ui with redraw := true }, world := done.2 }
  | .UpdateFailed => pure (printOnce m)
  | .UpdateComplete => pure (rebootOnStart (printOnce m))
  | .Restoring =>
    let done := restore m.updateArgs m.world
    pure { m with state := if done.1 then .RestoreComplete else .RestoreFailed,
                  ui := { m.ui with redraw := true }, world := done.2 }
  | .RestoreComplete => pure (rebootOnStart (printOnce m))
  | .RestoreFailed => pure (printOnce m)
  | .UpdateAborted => pure (printOnce m)

/-! ## Vocabulary of the statements -/

/-- The event is not a storage call of the program that changes a file other than `path`:
it is not a rename or a removal, and an open for writing or a write goes to `path`.  (A
collaborator call is recorded as one event; what the collaborator does is its own.) -/
def Event.onlyWrites (path : Str) : Event → Bool
  | .openWrite p _ => p = path
  | .write p _ _ => p = path
  | .rename _ _ _ => false
  | .remove _ _ => false
  | _ => true

/-- Successive frames of the choice screen: `drawConfirmationScreen` is called once per
frame with the keys of that frame; the result is the state of the screen after the last
frame. -/
def drawTicks (args : UpdateArgs) (usingConfig : Bool) :
    List Keys → Ui → Hid → Except Fault Ui
  | [], ui, _ => .ok ui
  | keys :: rest, ui, hid =>
    match drawConfirmationScreen args usingConfig ui { hid with down := keys } with
    | .ok drawn => drawTicks args usingConfig rest drawn.ui drawn.hid
    | .error fault => .error fault

/-- Cursor displacement asked by the keys of a frame. -/
def cursorDelta (keys : Keys) : Int :=
  (if keys.down then 1 else 0) - (if keys.up then 1 else 0)

/-- The transitions of the orchestrator listed by the spec. -/
def allowedTransition : UpdateState → UpdateState → Bool
  | .UpdateConfirmationScreen, next =>
    next = .UpdateConfirmationScreen ∨ next = .Updating ∨ next = .Restoring ∨
      next = .UpdateAborted
  | .Updating, next => next = .UpdateComplete ∨ next = .UpdateFailed
  | .Restoring, next => next = .RestoreComplete ∨ next = .RestoreFailed
  | .UpdateComplete, next => next = .UpdateComplete
  | .UpdateFailed, next => next = .UpdateFailed
  | .UpdateAborted, next => next = .UpdateAborted
  | .RestoreComplete, next => next = .RestoreComplete
  | .RestoreFailed, next => next = .RestoreFailed

/-- The machine in which the frame's `START` test has the given outcome. -/
def Machine.withStart (m : Machine) (start : Bool) : Machine :=
  { m with hid := { m.hid with down := { m.hid.down with start := start } } }

/-! ## Concrete sessions on which the theorems are exercised -/

def restoreFailMachine : Machine :=
  { state := .Restoring,
    updateArgs :=
      { currentVersion := [], backupVersion := [], migrateARN := false, backupExists := true,
        payloadPath := "/luma/payload.bin".toList, backupExisting := true,
        stable := none, hourly := none, choice := noChoice },
    usingConfig := false,
    ui := Ui.initial,
    hid := { down := noKeys, apt := [], scans := [] },
    world := { files := [("/luma/payload.bin".toList, [1, 2, 3])], faults := [], log := [] } }

def roundtripArgs : UpdateArgs :=
  { currentVersion := [], backupVersion := [], migrateARN := false, backupExists := false,
    payloadPath := "/luma/payload.bin".toList, backupExisting := true,
    stable := none, hourly := none, choice := noChoice }

def roundtripWorld : World :=
  { files := [("/luma/payload.bin".toList, [4, 5, 6]),
              ("/luma/payload.bin.broken".toList, [7])],
    faults := [], log := [] }

def legacyWorld : World :=
  { files := [(PayloadPath ++ "default.bin".toList, [1]),
              (PayloadPath ++ "def_extra.bin".toList, [2])],
    faults := [], log := [] }

def sampleEnv : Env :=
  { releaseGetPayload := fun _ _ =>
      { ret := true, payloadData := [0, 0, 7, 8, 9], offset := 2, payloadSize := 3 },
    pathchange := fun buffer _ _ => (true, buffer),
    arnMigrate := fun files => (true, files) }

def updatingMachine : Machine :=
  { state := .Updating,
    updateArgs :=
      { currentVersion := [], backupVersion := [], migrateARN := false, backupExists := false,
        payloadPath := normalisePayloadPath "luma/payload.bin".toList, backupExisting := true,
        stable := none, hourly := none, choice := noChoice },
    usingConfig := false,
    ui := Ui.initial,
    hid := { down := noKeys, apt := [], scans := [] },
    world := { files := [("/luma/payload.bin".toList, [1, 2, 3])], faults := [], log := [] } }

def cursorArgs : UpdateArgs :=
  { currentVersion := [], backupVersion := [], migrateARN := false, backupExists := true,
    payloadPath := "/luma/payload.bin".toList, backupExisting := true,
    stable := some { name := "v2".toList,
                     versions := [{ friendlyName := "v2".toList, name := "v2".toList,
                                    url := "u2".toList, prerelease := false },
                                  { friendlyName := "v1".toList, name := "v1".toList,
                                    url := "u1".toList, prerelease := false }] },
    hourly := none, choice := noChoice }

def cursorStable : ReleaseInfo :=
  { name := "v2".toList,
    versions := [{ friendlyName := "v2".toList, name := "v2".toList,
                   url := "u2".toList, prerelease := false },
                 { friendlyName := "v1".toList, name := "v1".toList,
                   url := "u1".toList, prerelease := false }] }

def keyDown : Keys := { up := false, down := true, a := false, start := false }

def keyUp : Keys := { up := true, down := false, a := false, start := false }

def singleStableArgs : UpdateArgs :=
  { currentVersion := [], backupVersion := [], migrateARN := false, backupExists := false,
    payloadPath := "/luma/payload.bin".toList, backupExisting := true,
    stable := some { name := "v1".toList,
                     versions := [{ friendlyName := "v1".toList, name := "v1".toList,
                                    url := "u1".toList, prerelease := false }] },
    hourly := none, choice := noChoice }

/-- The screen of `singleStableArgs` after its first frame. -/
def drawnUi : Ui :=
  { redraw := false, partialredraw := false, selected := 0,
    hourlyOptionStart := 1, extraOptionStart := 1 }

def keyUpAndA : Keys := { up := true, down := false, a := true, start := false }

def keyA : Keys := { up := false, down := false, a := true, start := false }

/-- A confirmation screen without backup whose cursor stands on the first extra slot. -/
def noBackupMachine : Machine :=
  { state := .UpdateConfirmationScreen,
    updateArgs := singleStableArgs,
    usingConfig := false,
    ui := { drawnUi with selected := 1 },
    hid := { down := keyA, apt := [], scans := [] },
    world := { files := [], faults := [], log := [] } }


/-! ## Storage lemmas -/

theorem resolve_cons_of_run {c : Char} {rest : Str}
    (h : c = '/' ∧ rest.head? = some '/') : resolve (c :: rest) = resolve rest := by
  rw [resolve, if_pos h]

theorem resolve_cons_of_not_run {c : Char} {rest : Str}
    (h : ¬ (c = '/' ∧ rest.head? = some '/')) : resolve (c :: rest) = c :: resolve rest := by
  rw [resolve, if_neg h]

theorem resolve_of_no_slash (s : Str) (h : '/' ∉ s) : resolve s = s := by
  induction s with
  | nil => rfl
  | cons c rest ih =>
    have hc : c ≠ '/' := fun e => h (e ▸ List.mem_cons_self _ _)
    have hrest : '/' ∉ rest := fun e => h (List.mem_cons_of_mem _ e)
    rw [resolve_cons_of_not_run (fun e => hc e.1), ih hrest]

/-- A suffix without slashes goes through the resolution unchanged. -/
theorem resolve_append_of_no_slash (p s : Str) (h : '/' ∉ s) :
    resolve (p ++ s) = resolve p ++ s := by
  induction p with
  | nil => simpa using resolve_of_no_slash s h
  | cons c rest ih =>
    have hhead : (rest ++ s).head? = some '/' ↔ rest.head? = some '/' := by
      cases rest with
      | nil =>
        cases s with
        | nil => simp
        | cons d s2 =>
          have hd : d ≠ '/' := fun e => h (e ▸ List.mem_cons_self _ _)
          simp [hd]
      | cons d rest2 => simp
    rw [List.cons_append]
    by_cases hc : c = '/' ∧ rest.head? = some '/'
    · rw [resolve_cons_of_run hc, resolve_cons_of_run ⟨hc.1, hhead.mpr hc.2⟩, ih]
    · rw [resolve_cons_of_not_run hc,
        resolve_cons_of_not_run (fun e => hc ⟨e.1, hhead.mp e.2⟩), ih, List.cons_append]

theorem resolve_append_ne_self (p s : Str) (hs : s ≠ []) (h : '/' ∉ s) :
    resolve (p ++ s) ≠ resolve p := by
  intro e
  rw [resolve_append_of_no_slash p s h] at e
  have := congrArg List.length e
  simp at this
  exact hs this

theorem readFile_congr (fs : Files) {p q : Str} (h : resolve p = resolve q) :
    readFile fs p = readFile fs q := by
  induction fs with
  | nil => rfl
  | cons e fs ih =>
    obtain ⟨k, c⟩ := e
    simp only [readFile, h, ih]

theorem readFile_eraseFile (fs : Files) (p q : Str) :
    readFile (eraseFile fs p) q =
      if resolve q = resolve p then none else readFile fs q := by
  induction fs with
  | nil => simp [eraseFile, readFile]
  | cons e fs ih =>
    obtain ⟨k, c⟩ := e
    by_cases hk : resolve k = resolve p
    · rw [eraseFile, if_pos hk, ih]
      by_cases hq : resolve q = resolve p
      · rw [if_pos hq, if_pos hq]
      · have hq2 : ¬ resolve k = resolve q := fun h => hq (h.symm.trans hk)
        rw [if_neg hq, if_neg hq, readFile, if_neg hq2]
    · rw [eraseFile, if_neg hk, readFile, ih]
      by_cases hq : resolve q = resolve p
      · have hq2 : ¬ resolve k = resolve q := fun h => hk (h.trans hq)
        rw [if_neg hq2, if_pos hq, if_pos hq]
      · rw [if_neg hq, if_neg hq, readFile]

theorem readFile_putFile (fs : Files) (p q : Str) (c : Bytes) :
    readFile (putFile fs p c) q =
      if resolve q = resolve p then some c else readFile fs q := by
  by_cases hq : resolve q = resolve p
  · rw [putFile, readFile, if_pos hq.symm, if_pos hq]
  · have hq2 : ¬ resolve p = resolve q := fun h => hq h.symm
    rw [putFile, readFile, if_neg hq2, readFile_eraseFile, if_neg hq, if_neg hq]

theorem since_of_log_eq {w w1 : World} {es : List Event} (h : w1.log = w.log ++ es) :
    World.since w w1 = es := by
  simp [World.since, h]

theorem stdRename_log (o n : Str) (w : World) :
    (stdRename o n w).2.log = w.log ++ [Event.rename o n (stdRename o n w).1] := by
  unfold stdRename
  split <;> rfl

theorem stdRename_true {o n : Str} {w : World} (h : (stdRename o n w).1 = true) :
    ∃ c, readFile w.files o = some c ∧
      (stdRename o n w).2.files = putFile (eraseFile w.files o) n c := by
  unfold stdRename at h ⊢
  split at h
  · rename_i c h1 h2
    exact ⟨c, h2, by simp [h1, h2]⟩
  · simp at h

theorem stdRename_false {o n : Str} {w : World} (h : (stdRename o n w).1 = false) :
    (stdRename o n w).2.files = w.files := by
  unfold stdRename at h ⊢
  split at h
  · simp at h
  · rfl

theorem stdRemove_log (p : Str) (w : World) :
    (stdRemove p w).2.log = w.log ++ [Event.remove p (stdRemove p w).1] := by
  unfold stdRemove
  split <;> rfl

theorem stdRemove_true {p : Str} {w : World} (h : (stdRemove p w).1 = true) :
    (stdRemove p w).2.files = eraseFile w.files p := by
  unfold stdRemove at h ⊢
  split at h
  · rename_i c h1 h2
    simp [h1, h2]
  · simp at h


theorem stdRename_readFile_true {o n : Str} {w : World} (h : (stdRename o n w).1 = true)
    (q : Str) :
    readFile (stdRename o n w).2.files q =
      if resolve q = resolve n then readFile w.files o
      else if resolve q = resolve o then none else readFile w.files q := by
  obtain ⟨c, hc, hf⟩ := stdRename_true h
  rw [hf, readFile_putFile, readFile_eraseFile, hc]

theorem stdRemove_false {p : Str} {w : World} (h : (stdRemove p w).1 = false) :
    (stdRemove p w).2.files = w.files := by
  unfold stdRemove at h ⊢
  split at h
  · simp at h
  · rfl

theorem openRead_log (p : Str) (w : World) :
    (openRead p w).2.log = w.log ++ [Event.openRead p (openRead p w).1] := rfl

theorem openRead_files (p : Str) (w : World) : (openRead p w).2.files = w.files := rfl

theorem openRead_true {p : Str} {w : World} (h : (openRead p w).1 = true) :
    ∃ c, readFile w.files p = some c := by
  simp only [openRead, Bool.and_eq_true, Option.isSome_iff_exists] at h
  exact h.2

theorem openWrite_log (p : Str) (w : World) :
    (openWrite p w).2.log = w.log ++ [Event.openWrite p (openWrite p w).1] := rfl

theorem openWrite_files (p : Str) (w : World) :
    (openWrite p w).2.files = if (openWrite p w).1 then putFile w.files p [] else w.files := rfl

theorem streamWrite_log (b : Bool) (p : Str) (d : Bytes) (w : World) :
    (streamWrite b p d w).log = w.log ++ [Event.write p d b] := rfl

/-- The backup and the set-aside file of a path are two files. -/
theorem bak_ne_broken (p : Str) :
    resolve (p ++ ".bak".toList) ≠ resolve (p ++ ".broken".toList) := by
  rw [resolve_append_of_no_slash p _ (by decide), resolve_append_of_no_slash p _ (by decide)]
  simp

theorem bak_ne_self (p : Str) : resolve (p ++ ".bak".toList) ≠ resolve p :=
  resolve_append_ne_self p _ (by decide) (by decide)

theorem broken_ne_self (p : Str) : resolve (p ++ ".broken".toList) ≠ resolve p :=
  resolve_append_ne_self p _ (by decide) (by decide)

theorem mainStep_restoring (env : Env) (m : Machine) (h : m.state = .Restoring) :
    mainStep env m = .ok
      { m with state := if (restore m.updateArgs m.world).1 then .RestoreComplete
                        else .RestoreFailed,
               ui := { m.ui with redraw := true },
               world := (restore m.updateArgs m.world).2 } := by
  simp only [mainStep, h]
  rfl

theorem mainStep_updating (env : Env) (m : Machine) (h : m.state = .Updating) :
    mainStep env m = .ok
      { m with state := if (update env m.updateArgs m.world).1 then .UpdateComplete
                        else .UpdateFailed,
               ui := { m.ui with redraw := true },
               world := (update env m.updateArgs m.world).2 } := by
  simp only [mainStep, h]
  rfl

/-- C1: when step (a) of `restore` succeeds and step (b) fails, `restore` reports failure,
the file `path + ".broken"` holds the bytes that were at `path` before the call, the run
consists of the two renames only (nothing is removed), and the orchestrator moves from
`Restoring` to `RestoreFailed`. -/
theorem restore_failed_step_b_keeps_broken (env : Env) (m : Machine) (c : Bytes)
    (hstate : m.state = .Restoring)
    (hfile : readFile m.world.files m.updateArgs.payloadPath = some c)
    (ha : (stdRename m.updateArgs.payloadPath
            (m.updateArgs.payloadPath ++ ".broken".toList) m.world).1 = true)
    (hb : (stdRename (m.updateArgs.payloadPath ++ ".bak".toList) m.updateArgs.payloadPath
            (stdRename m.updateArgs.payloadPath
              (m.updateArgs.payloadPath ++ ".broken".toList) m.world).2).1 = false) :
    (restore m.updateArgs m.world).1 = false ∧
    readFile (restore m.updateArgs m.world).2.files
      (m.updateArgs.payloadPath ++ ".broken".toList) = some c ∧
    World.since m.world (restore m.updateArgs m.world).2 =
      [Event.rename m.updateArgs.payloadPath
         (m.updateArgs.payloadPath ++ ".broken".toList) true,
       Event.rename (m.updateArgs.payloadPath ++ ".bak".toList)
         m.updateArgs.payloadPath false] ∧
    ∃ m', mainStep env m = .ok m' ∧ m'.state = .RestoreFailed ∧
      m'.world = (restore m.updateArgs m.world).2 := by
  have hres : restore m.updateArgs m.world =
      (false, (stdRename (m.updateArgs.payloadPath ++ ".bak".toList) m.updateArgs.payloadPath
            (stdRename m.updateArgs.payloadPath
              (m.updateArgs.payloadPath ++ ".broken".toList) m.world).2).2) := by
    simp only [restore, ha, hb, Bool.true_eq_false, if_false, if_true]
  refine ⟨by rw [hres], ?_, ?_, ?_⟩
  · rw [hres]
    simp only []
    rw [stdRename_false hb, stdRename_readFile_true ha, hfile]
    simp
  · apply since_of_log_eq
    rw [hres]
    simp only []
    rw [stdRename_log, stdRename_log, ha, hb]
    simp
  · refine ⟨_, mainStep_restoring env m hstate, ?_, rfl⟩
    simp only [hres, Bool.false_eq_true, if_false]

theorem restore_failed_step_b_keeps_broken_witness :
    (restore restoreFailMachine.updateArgs restoreFailMachine.world).1 = false ∧
    readFile (restore restoreFailMachine.updateArgs restoreFailMachine.world).2.files
      "/luma/payload.bin.broken".toList = some [1, 2, 3] :=
  have h := restore_failed_step_b_keeps_broken
    { releaseGetPayload := fun _ _ => ⟨false, [], 0, 0⟩, pathchange := fun b _ _ => (false, b),
      arnMigrate := fun f => (false, f) }
    restoreFailMachine [1, 2, 3] (by decide) (by decide) (by decide) (by decide)
  ⟨h.1, h.2.1⟩

theorem since_append {w w1 w2 : World} (h1 : w.log <+: w1.log) (h2 : w1.log <+: w2.log) :
    World.since w w2 = World.since w w1 ++ World.since w1 w2 := by
  obtain ⟨a, ha⟩ := h1
  obtain ⟨b, hb⟩ := h2
  simp [World.since, ← hb, ← ha]

theorem backupA9LH_log (p : Str) (w : World) :
    (backupA9LH p w).2.log = w.log ++
      (if (openRead p w).1 = false then [Event.openRead p false]
       else if (openWrite (p ++ ".bak".toList) (openRead p w).2).1 = false then
         [Event.openRead p true, Event.openWrite (p ++ ".bak".toList) false]
       else [Event.openRead p true, Event.openWrite (p ++ ".bak".toList) true,
             Event.write (p ++ ".bak".toList) ((readFile w.files p).getD []) true]) := by
  have hne : ¬ resolve p = resolve (p ++ ".bak".toList) := fun h => bak_ne_self p h.symm
  unfold backupA9LH
  rcases Bool.eq_false_or_eq_true (openRead p w).1 with h1 | h1
  · rcases Bool.eq_false_or_eq_true (openWrite (p ++ ".bak".toList) (openRead p w).2).1
      with h2 | h2
    · simp only [h1, h2, Bool.true_eq_false, if_false, streamWrite_log, openWrite_log,
        openRead_log, List.append_assoc, List.singleton_append, openWrite_files,
        openRead_files, if_true, readFile_putFile, if_neg hne, List.cons_append,
        List.nil_append]
    · simp only [h1, h2, Bool.true_eq_false, if_true, if_false, openWrite_log,
        openRead_log, List.append_assoc, List.singleton_append]
  · simp only [h1, if_true, openRead_log]

theorem backupA9LH_true {p : Str} {w : World} (h : (backupA9LH p w).1 = true) (q : Str) :
    readFile (backupA9LH p w).2.files q =
      if resolve q = resolve (p ++ ".bak".toList) then readFile w.files p
      else readFile w.files q := by
  have hne : ¬ resolve p = resolve (p ++ ".bak".toList) := fun h => bak_ne_self p h.symm
  unfold backupA9LH at h ⊢
  rcases Bool.eq_false_or_eq_true (openRead p w).1 with h1 | h1
  · rcases Bool.eq_false_or_eq_true (openWrite (p ++ ".bak".toList) (openRead p w).2).1
      with h2 | h2
    · obtain ⟨c, hc⟩ := openRead_true h1
      simp only [h1, h2, Bool.true_eq_false, if_false, streamWrite, openWrite_files,
        openRead_files, if_true, readFile_putFile, if_neg hne, hc, Option.getD_some,
        List.nil_append]
      by_cases hq : resolve q = resolve (p ++ ".bak".toList)
      · simp only [hq, if_true]
      · simp only [hq, if_false]
    · simp only [h1, h2, Bool.true_eq_false, if_true, if_false] at h
      exact absurd h (by decide)
  · simp only [h1, if_true] at h
    exact absurd h (by decide)

theorem restore_log (args : UpdateArgs) (w : World) :
    (restore args w).2.log = w.log ++
      (if (stdRename args.payloadPath (args.payloadPath ++ ".broken".toList) w).1 = false then
         [Event.rename args.payloadPath (args.payloadPath ++ ".broken".toList) false]
       else if (stdRename (args.payloadPath ++ ".bak".toList) args.payloadPath
           (stdRename args.payloadPath (args.payloadPath ++ ".broken".toList) w).2).1 = false
       then
         [Event.rename args.payloadPath (args.payloadPath ++ ".broken".toList) true,
          Event.rename (args.payloadPath ++ ".bak".toList) args.payloadPath false]
       else
         [Event.rename args.payloadPath (args.payloadPath ++ ".broken".toList) true,
          Event.rename (args.payloadPath ++ ".bak".toList) args.payloadPath true,
          Event.remove (args.payloadPath ++ ".broken".toList)
            (stdRemove (args.payloadPath ++ ".broken".toList)
              (stdRename (args.payloadPath ++ ".bak".toList) args.payloadPath
                (stdRename args.payloadPath
                  (args.payloadPath ++ ".broken".toList) w).2).2).1]) := by
  unfold restore
  rcases Bool.eq_false_or_eq_true
    (stdRename args.payloadPath (args.payloadPath ++ ".broken".toList) w).1 with h1 | h1
  · rcases Bool.eq_false_or_eq_true (stdRename (args.payloadPath ++ ".bak".toList)
      args.payloadPath
      (stdRename args.payloadPath (args.payloadPath ++ ".broken".toList) w).2).1 with h2 | h2
    · simp only [h1, h2, Bool.true_eq_false, if_false, stdRename_log, stdRemove_log,
        List.append_assoc, List.singleton_append, List.cons_append, List.nil_append]
    · simp only [h1, h2, Bool.true_eq_false, if_true, if_false, stdRename_log,
        List.append_assoc, List.singleton_append]
  · simp only [h1, if_true, stdRename_log]

theorem backupA9LH_fst (p : Str) (w : World) :
    (backupA9LH p w).1 =
      ((openRead p w).1 && (openWrite (p ++ ".bak".toList) (openRead p w).2).1) := by
  unfold backupA9LH
  rcases Bool.eq_false_or_eq_true (openRead p w).1 with h1 | h1
  · rcases Bool.eq_false_or_eq_true (openWrite (p ++ ".bak".toList) (openRead p w).2).1
      with h2 | h2
    · simp only [h1, h2, Bool.true_eq_false, if_false, Bool.and_self]
    · simp only [h1, h2, Bool.true_eq_false, if_true, if_false, Bool.and_false]
  · simp only [h1, if_true, Bool.false_and]

theorem restore_fst (args : UpdateArgs) (w : World) :
    (restore args w).1 =
      ((stdRename args.payloadPath (args.payloadPath ++ ".broken".toList) w).1 &&
        (stdRename (args.payloadPath ++ ".bak".toList) args.payloadPath
          (stdRename args.payloadPath (args.payloadPath ++ ".broken".toList) w).2).1) := by
  unfold restore
  rcases Bool.eq_false_or_eq_true
    (stdRename args.payloadPath (args.payloadPath ++ ".broken".toList) w).1 with h1 | h1
  · rcases Bool.eq_false_or_eq_true (stdRename (args.payloadPath ++ ".bak".toList)
      args.payloadPath
      (stdRename args.payloadPath (args.payloadPath ++ ".broken".toList) w).2).1 with h2 | h2
    · simp only [h1, h2, Bool.true_eq_false, if_false, Bool.and_self]
    · simp only [h1, h2, Bool.true_eq_false, if_true, if_false, Bool.and_false]
  · simp only [h1, if_true, Bool.false_and]

/-- Storage after a run of `restore` in which the three steps succeed. -/
theorem restore_files_of_steps {args : UpdateArgs} {w : World}
    (ha : (stdRename args.payloadPath (args.payloadPath ++ ".broken".toList) w).1 = true)
    (hb : (stdRename (args.payloadPath ++ ".bak".toList) args.payloadPath
          (stdRename args.payloadPath (args.payloadPath ++ ".broken".toList) w).2).1 = true)
    (hc : (stdRemove (args.payloadPath ++ ".broken".toList)
            (stdRename (args.payloadPath ++ ".bak".toList) args.payloadPath
              (stdRename args.payloadPath
                (args.payloadPath ++ ".broken".toList) w).2).2).1 = true)
    (q : Str) :
    readFile (restore args w).2.files q =
      if resolve q = resolve (args.payloadPath ++ ".broken".toList) then none
      else if resolve q = resolve args.payloadPath then
        readFile w.files (args.payloadPath ++ ".bak".toList)
      else if resolve q = resolve (args.payloadPath ++ ".bak".toList) then none
      else readFile w.files q := by
  have e1 : resolve (args.payloadPath ++ ".bak".toList) ≠
      resolve (args.payloadPath ++ ".broken".toList) := bak_ne_broken _
  have e2 : resolve (args.payloadPath ++ ".bak".toList) ≠ resolve args.payloadPath :=
    bak_ne_self _
  have e3 : resolve (args.payloadPath ++ ".broken".toList) ≠ resolve args.payloadPath :=
    broken_ne_self _
  have hres : (restore args w).2 = (stdRemove (args.payloadPath ++ ".broken".toList)
            (stdRename (args.payloadPath ++ ".bak".toList) args.payloadPath
              (stdRename args.payloadPath
                (args.payloadPath ++ ".broken".toList) w).2).2).2 := by
    simp only [restore, ha, hb, Bool.true_eq_false, if_false]
  rw [hres, stdRemove_true hc, readFile_eraseFile, stdRename_readFile_true hb]
  simp only [stdRename_readFile_true ha, if_neg e1, if_neg e2]
  by_cases h1 : resolve q = resolve (args.payloadPath ++ ".broken".toList)
  · simp only [h1, if_true]
  · by_cases h2 : resolve q = resolve args.payloadPath
    · simp only [h1, h2, if_true, if_false, if_neg e3.symm]
    · simp only [h1, h2, if_false]

/-- C2: when a file is at `path` and every open, write, rename and remove of the run
succeeds, `backupA9LH(path)` followed by `restore` returns success from both, leaves at
`path` the bytes it held before the backup and leaves no file at `path + ".broken"`. -/
theorem backup_then_restore_roundtrip (args : UpdateArgs) (w : World) (c : Bytes)
    (hfile : readFile w.files args.payloadPath = some c)
    (hok : ∀ e ∈ World.since w (restore args (backupA9LH args.payloadPath w).2).2,
      e.ok = true) :
    (backupA9LH args.payloadPath w).1 = true ∧
    (restore args (backupA9LH args.payloadPath w).2).1 = true ∧
    readFile (restore args (backupA9LH args.payloadPath w).2).2.files args.payloadPath
      = some c ∧
    readFile (restore args (backupA9LH args.payloadPath w).2).2.files
      (args.payloadPath ++ ".broken".toList) = none := by
  have hp1 : w.log <+: (backupA9LH args.payloadPath w).2.log :=
    ⟨_, (backupA9LH_log _ _).symm⟩
  have hp2 : (backupA9LH args.payloadPath w).2.log <+:
      (restore args (backupA9LH args.payloadPath w).2).2.log := ⟨_, (restore_log _ _).symm⟩
  rw [since_append hp1 hp2] at hok
  have hokB := fun e he => hok e (List.mem_append_left _ he)
  have hokR := fun e he => hok e (List.mem_append_right _ he)
  rw [since_of_log_eq (backupA9LH_log _ _)] at hokB
  rw [since_of_log_eq (restore_log _ _)] at hokR
  have e1 : resolve (args.payloadPath ++ ".bak".toList) ≠
      resolve (args.payloadPath ++ ".broken".toList) := bak_ne_broken _
  have e2 : resolve (args.payloadPath ++ ".bak".toList) ≠ resolve args.payloadPath :=
    bak_ne_self _
  have e3 : resolve (args.payloadPath ++ ".broken".toList) ≠ resolve args.payloadPath :=
    broken_ne_self _
  -- the two opens of the backup succeeded
  have h1 : (openRead args.payloadPath w).1 = true := by
    rcases Bool.eq_false_or_eq_true (openRead args.payloadPath w).1 with h | h
    · exact h
    · have := hokB (Event.openRead args.payloadPath false)
        (by rw [if_pos h]; exact List.mem_singleton.mpr rfl)
      exact absurd this Bool.false_ne_true
  have h2 : (openWrite (args.payloadPath ++ ".bak".toList)
      (openRead args.payloadPath w).2).1 = true := by
    rcases Bool.eq_false_or_eq_true (openWrite (args.payloadPath ++ ".bak".toList)
      (openRead args.payloadPath w).2).1 with h | h
    · exact h
    · have := hokB (Event.openWrite (args.payloadPath ++ ".bak".toList) false)
        (by rw [if_neg (by rw [h1]; decide), if_pos h]; simp)
      exact absurd this Bool.false_ne_true
  have hB : (backupA9LH args.payloadPath w).1 = true := by
    rw [backupA9LH_fst, h1, h2]; rfl
  -- the three steps of the restore succeeded
  have h3 : (stdRename args.payloadPath (args.payloadPath ++ ".broken".toList)
      (backupA9LH args.payloadPath w).2).1 = true := by
    rcases Bool.eq_false_or_eq_true (stdRename args.payloadPath
      (args.payloadPath ++ ".broken".toList) (backupA9LH args.payloadPath w).2).1 with h | h
    · exact h
    · have := hokR (Event.rename args.payloadPath (args.payloadPath ++ ".broken".toList) false)
        (by rw [if_pos h]; exact List.mem_singleton.mpr rfl)
      exact absurd this Bool.false_ne_true
  have h4 : (stdRename (args.payloadPath ++ ".bak".toList) args.payloadPath
      (stdRename args.payloadPath (args.payloadPath ++ ".broken".toList)
        (backupA9LH args.payloadPath w).2).2).1 = true := by
    rcases Bool.eq_false_or_eq_true (stdRename (args.payloadPath ++ ".bak".toList)
      args.payloadPath (stdRename args.payloadPath (args.payloadPath ++ ".broken".toList)
        (backupA9LH args.payloadPath w).2).2).1 with h | h
    · exact h
    · have := hokR (Event.rename (args.payloadPath ++ ".bak".toList) args.payloadPath false)
        (by rw [if_neg (by rw [h3]; decide), if_pos h]; simp)
      exact absurd this Bool.false_ne_true
  have h5 : (stdRemove (args.payloadPath ++ ".broken".toList)
      (stdRename (args.payloadPath ++ ".bak".toList) args.payloadPath
        (stdRename args.payloadPath (args.payloadPath ++ ".broken".toList)
          (backupA9LH args.payloadPath w).2).2).2).1 = true := by
    exact hokR (Event.remove (args.payloadPath ++ ".broken".toList)
      (stdRemove (args.payloadPath ++ ".broken".toList)
        (stdRename (args.payloadPath ++ ".bak".toList) args.payloadPath
          (stdRename args.payloadPath (args.payloadPath ++ ".broken".toList)
            (backupA9LH args.payloadPath w).2).2).2).1)
      (by rw [if_neg (by rw [h3]; decide), if_neg (by rw [h4]; decide)]; simp)
  refine ⟨hB, by rw [restore_fst, h3, h4]; rfl, ?_, ?_⟩
  · rw [restore_files_of_steps h3 h4 h5, if_neg e3.symm, if_pos rfl, backupA9LH_true hB,
      if_pos rfl, hfile]
  · rw [restore_files_of_steps h3 h4 h5, if_pos rfl]

theorem backup_then_restore_roundtrip_witness :
    readFile roundtripWorld.files roundtripArgs.payloadPath = some [4, 5, 6] ∧
    readFile (restore roundtripArgs (backupA9LH roundtripArgs.payloadPath
      roundtripWorld).2).2.files roundtripArgs.payloadPath = some [4, 5, 6] ∧
    readFile (restore roundtripArgs (backupA9LH roundtripArgs.payloadPath
      roundtripWorld).2).2.files (roundtripArgs.payloadPath ++ ".broken".toList) = none :=
  have h := backup_then_restore_roundtrip roundtripArgs roundtripWorld [4, 5, 6]
    (by decide) (by decide)
  ⟨by decide, h.2.2.1, h.2.2.2⟩

/-! ## Payload migration lemmas -/

theorem stdRename_grows (o n : Str) (w : World) : w.log <+: (stdRename o n w).2.log :=
  ⟨_, (stdRename_log o n w).symm⟩

theorem stdRename_readFile_other (o n : Str) (w : World) {q : Str}
    (ho : resolve q ≠ resolve o) (hn : resolve q ≠ resolve n) :
    readFile (stdRename o n w).2.files q = readFile w.files q := by
  rcases Bool.eq_false_or_eq_true (stdRename o n w).1 with h | h
  · rw [stdRename_readFile_true h, if_neg hn, if_neg ho]
  · rw [stdRename_false h]

/-- A rename never creates a file at a path that does not name its target. -/
theorem stdRename_readFile_none (o n : Str) (w : World) {q : Str}
    (hn : resolve q ≠ resolve n)
    (hq : readFile w.files q = none) : readFile (stdRename o n w).2.files q = none := by
  rcases Bool.eq_false_or_eq_true (stdRename o n w).1 with h | h
  · rw [stdRename_readFile_true h, if_neg hn]
    split_ifs
    · rfl
    · exact hq
  · rw [stdRename_false h, hq]

theorem hasPrefix_iff (f o : Str) : hasPrefix f o = true ↔ f = o ++ f.drop o.length := by
  unfold hasPrefix
  constructor
  · intro h
    split_ifs at h with hlen
    have ht : f.take o.length = o := by simpa using h
    conv_lhs => rw [← List.take_append_drop o.length f, ht]
  · intro h
    have hlen : ¬ f.length < o.length := by
      have := congrArg List.length h
      simp at this
      omega
    rw [if_neg hlen]
    have : f.take o.length = o := by
      conv_lhs => rw [h]
      simp
    simpa using this

theorem findAndRenamePrefix_grows (files : List Str) (o n : Str) (w : World) :
    w.log <+: (findAndRenamePrefix files o n w).2.log := by
  induction files generalizing w with
  | nil => exact List.prefix_refl _
  | cons f rest ih =>
    unfold findAndRenamePrefix
    split_ifs
    · exact (stdRename_grows _ _ w).trans (ih _)
    · exact ih w

theorem findAndRenamePrefix_fst (files : List Str) (o n : Str) (w : World) :
    (findAndRenamePrefix files o n w).1 = true := by
  induction files generalizing w with
  | nil => rfl
  | cons f rest ih =>
    unfold findAndRenamePrefix
    split_ifs
    · exact ih _
    · exact ih w

/-- The renames of `findAndRenamePrefix` only touch files inside the payload directory. -/
theorem findAndRenamePrefix_readFile_outside (files : List Str) (o n : Str) (w : World)
    {q : Str} (hq : ∀ x, resolve q ≠ resolve (PayloadPath ++ x)) :
    readFile (findAndRenamePrefix files o n w).2.files q = readFile w.files q := by
  induction files generalizing w with
  | nil => rfl
  | cons f rest ih =>
    unfold findAndRenamePrefix
    split_ifs
    · rw [ih, stdRename_readFile_other]
      · exact hq f
      · rw [List.append_assoc]
        exact hq _
    · exact ih w

/-- A path that does not name a file of the form directory + new prefix + rest and holds
no file before `findAndRenamePrefix` holds none after it. -/
theorem findAndRenamePrefix_readFile_none (files : List Str) (o n : Str) (w : World)
    {q : Str} (hq : ∀ x, resolve q ≠ resolve (PayloadPath ++ n ++ x))
    (hnone : readFile w.files q = none) :
    readFile (findAndRenamePrefix files o n w).2.files q = none := by
  induction files generalizing w with
  | nil => exact hnone
  | cons f rest ih =>
    unfold findAndRenamePrefix
    split_ifs
    · exact ih _ (stdRename_readFile_none _ _ w (hq _) hnone)
    · exact ih w hnone

theorem since_stdRename (o n : Str) (w : World) :
    World.since w (stdRename o n w).2 = [Event.rename o n (stdRename o n w).1] :=
  since_of_log_eq (stdRename_log o n w)

/-- When every event of a run that starts with a rename succeeded, the rename succeeded and
every event of the rest of the run succeeded. -/
theorem ok_after_stdRename {o n : Str} {w w2 : World}
    (hp : (stdRename o n w).2.log <+: w2.log)
    (hok : ∀ e ∈ World.since w w2, e.ok = true) :
    (stdRename o n w).1 = true ∧ ∀ e ∈ World.since (stdRename o n w).2 w2, e.ok = true := by
  rw [since_append (stdRename_grows o n w) hp, since_stdRename] at hok
  exact ⟨hok _ (List.mem_append_left _ (List.mem_singleton.mpr rfl)),
    fun e he => hok e (List.mem_append_right _ he)⟩

theorem payload_target_ne_source {o n : Str}
    (hdiff : ∀ x y : Str, resolve (PayloadPath ++ n ++ x) ≠ resolve (PayloadPath ++ (o ++ y)))
    {f : Str} (hf : hasPrefix f o = true) (x : Str) :
    resolve (PayloadPath ++ f) ≠ resolve (PayloadPath ++ n ++ x) := by
  intro h
  rw [(hasPrefix_iff f o).mp hf] at h
  exact hdiff _ _ h.symm

/-- Two names with the old prefix name the same file exactly when their renamed forms
do. -/
theorem payload_target_same_iff {o n : Str}
    (hinj : ∀ x y : Str, resolve (PayloadPath ++ (o ++ x)) = resolve (PayloadPath ++ (o ++ y)) ↔
      resolve (PayloadPath ++ n ++ x) = resolve (PayloadPath ++ n ++ y))
    {f g : Str} (hf : hasPrefix f o = true) (hg : hasPrefix g o = true) :
    resolve (PayloadPath ++ f) = resolve (PayloadPath ++ g) ↔
      resolve (PayloadPath ++ n ++ f.drop o.length) =
        resolve (PayloadPath ++ n ++ g.drop o.length) := by
  have h := hinj (f.drop o.length) (g.drop o.length)
  rw [← (hasPrefix_iff f o).mp hf, ← (hasPrefix_iff g o).mp hg] at h
  exact h

/-- A renamed file stays at its new name until the end of `findAndRenamePrefix` when every
rename of the run succeeds. -/
theorem findAndRenamePrefix_target_stays (files : List Str) (o n : Str)
    (hdiff : ∀ x y : Str, resolve (PayloadPath ++ n ++ x) ≠ resolve (PayloadPath ++ (o ++ y)))
    (hinj : ∀ x y : Str, resolve (PayloadPath ++ (o ++ x)) = resolve (PayloadPath ++ (o ++ y)) ↔
      resolve (PayloadPath ++ n ++ x) = resolve (PayloadPath ++ n ++ y))
    (w : World) (name : Str) (c : Bytes)
    (hp : hasPrefix name o = true)
    (hsrc : readFile w.files (PayloadPath ++ name) = none)
    (htgt : readFile w.files (PayloadPath ++ n ++ name.drop o.length) = some c)
    (hok : ∀ e ∈ World.since w (findAndRenamePrefix files o n w).2, e.ok = true) :
    readFile (findAndRenamePrefix files o n w).2.files
      (PayloadPath ++ n ++ name.drop o.length) = some c := by
  induction files generalizing w with
  | nil => exact htgt
  | cons f rest ih =>
    unfold findAndRenamePrefix at hok ⊢
    split_ifs at hok ⊢ with hf
    · obtain ⟨hren, hok2⟩ := ok_after_stdRename (findAndRenamePrefix_grows _ _ _ _) hok
      have hne : ¬ resolve (PayloadPath ++ f) = resolve (PayloadPath ++ name) := by
        intro h
        obtain ⟨c2, hc2, -⟩ := stdRename_true hren
        rw [readFile_congr _ h, hsrc] at hc2
        exact Option.noConfusion hc2
      refine ih _ ?_ ?_ hok2
      · exact stdRename_readFile_none _ _ w (payload_target_ne_source hdiff hp _) hsrc
      · rw [stdRename_readFile_other _ _ w ?_ ?_, htgt]
        · exact (payload_target_ne_source hdiff hf _).symm
        · intro h
          exact hne ((payload_target_same_iff hinj hf hp).mpr h.symm)
    · exact ih w hsrc htgt hok

/-- A listed file with the old prefix ends up under the new prefix when every rename of
the run succeeds. -/
theorem findAndRenamePrefix_moves (files : List Str) (o n : Str)
    (hdiff : ∀ x y : Str, resolve (PayloadPath ++ n ++ x) ≠ resolve (PayloadPath ++ (o ++ y)))
    (hinj : ∀ x y : Str, resolve (PayloadPath ++ (o ++ x)) = resolve (PayloadPath ++ (o ++ y)) ↔
      resolve (PayloadPath ++ n ++ x) = resolve (PayloadPath ++ n ++ y))
    (w : World) (name : Str) (c : Bytes)
    (hmem : name ∈ files) (hp : hasPrefix name o = true)
    (hsrc : readFile w.files (PayloadPath ++ name) = some c)
    (hok : ∀ e ∈ World.since w (findAndRenamePrefix files o n w).2, e.ok = true) :
    readFile (findAndRenamePrefix files o n w).2.files (PayloadPath ++ name) = none ∧
    readFile (findAndRenamePrefix files o n w).2.files
      (PayloadPath ++ n ++ name.drop o.length) = some c := by
  induction files generalizing w with
  | nil => exact absurd hmem (List.not_mem_nil _)
  | cons f rest ih =>
    unfold findAndRenamePrefix at hok ⊢
    split_ifs at hok ⊢ with hf
    · obtain ⟨hren, hok2⟩ := ok_after_stdRename (findAndRenamePrefix_grows _ _ _ _) hok
      by_cases hfn : resolve (PayloadPath ++ f) = resolve (PayloadPath ++ name)
      · have hs : readFile (stdRename (PayloadPath ++ f)
            (PayloadPath ++ n ++ f.drop o.length) w).2.files (PayloadPath ++ name) = none := by
          rw [stdRename_readFile_true hren, if_neg (payload_target_ne_source hdiff hp _),
            if_pos hfn.symm]
        have ht : readFile (stdRename (PayloadPath ++ f)
            (PayloadPath ++ n ++ f.drop o.length) w).2.files
            (PayloadPath ++ n ++ name.drop o.length) = some c := by
          rw [stdRename_readFile_true hren,
            if_pos ((payload_target_same_iff hinj hf hp).mp hfn).symm,
            readFile_congr _ hfn, hsrc]
        exact ⟨findAndRenamePrefix_readFile_none _ _ _ _
            (fun x => payload_target_ne_source hdiff hp x) hs,
          findAndRenamePrefix_target_stays _ _ _ hdiff hinj _ _ _ hp hs ht hok2⟩
      · have hmem2 : name ∈ rest := by
          rcases List.mem_cons.mp hmem with h | h
          · exact absurd (by rw [h]) hfn
          · exact h
        refine ih _ hmem2 ?_ hok2
        rw [stdRename_readFile_other _ _ w ?_ ?_, hsrc]
        · exact fun h => hfn h.symm
        · exact payload_target_ne_source hdiff hp _
    · have hmem2 : name ∈ rest := by
        rcases List.mem_cons.mp hmem with h | h
        · subst h
          exact absurd hp hf
        · exact h
      exact ih w hmem2 hsrc hok

theorem readFile_some_mem {fs : Files} {p : Str} {c : Bytes} (h : readFile fs p = some c) :
    ∃ k, (k, c) ∈ fs ∧ resolve k = resolve p := by
  induction fs with
  | nil => exact Option.noConfusion h
  | cons e fs ih =>
    obtain ⟨k, d⟩ := e
    unfold readFile at h
    split_ifs at h with hk
    · cases h
      exact ⟨k, List.mem_cons_self _ _, hk⟩
    · obtain ⟨k2, hmem, hk2⟩ := ih h
      exact ⟨k2, List.mem_cons_of_mem _ hmem, hk2⟩

theorem resolve_payload_name {name : Str} (hslash : '/' ∉ name) :
    resolve (PayloadPath ++ name) = PayloadPath ++ name := by
  rw [resolve_append_of_no_slash _ _ hslash]
  have : resolve PayloadPath = PayloadPath := by decide
  rw [this]

theorem mem_directoryEntries {fs : Files} {name : Str} {c : Bytes}
    (h : readFile fs (PayloadPath ++ name) = some c) (hne : name ≠ [])
    (hslash : '/' ∉ name) : name ∈ directoryEntries fs := by
  obtain ⟨k, hmem, hk⟩ := readFile_some_mem h
  rw [resolve_payload_name hslash] at hk
  unfold directoryEntries
  rw [List.mem_filterMap]
  refine ⟨(k, c), hmem, ?_⟩
  have hd : (PayloadPath ++ name).drop PayloadPath.length = name := List.drop_left _ _
  simp only [hk, hd]
  rw [if_pos ⟨List.prefix_append _ _, hne, hslash⟩]

theorem openArchive_log (w : World) :
    (openArchive w).2.log = w.log ++ [Event.openArchive (openArchive w).1] := rfl

theorem openDirectory_log (w : World) :
    (openDirectory w).2.log = w.log ++ [Event.openDirectory (openDirectory w).1] := rfl

theorem listPayloads_files (w : World) : (listPayloads w).2.files = w.files := by
  simp only [listPayloads]
  split_ifs <;> rfl

theorem listPayloads_log (w : World) :
    (listPayloads w).2.log = w.log ++
      (if (openArchive w).1 = false then [Event.openArchive false]
       else [Event.openArchive true, Event.openDirectory (openDirectory (openArchive w).2).1])
      := by
  simp only [listPayloads]
  rcases Bool.eq_false_or_eq_true (openArchive w).1 with h1 | h1
  · have hA : ¬ (openArchive w).1 = false := by rw [h1]; decide
    simp only [if_neg hA]
    have : (if (openDirectory (openArchive w).2).1 = false then
        (([] : List Str), (openDirectory (openArchive w).2).2)
      else ((directoryEntries (openDirectory (openArchive w).2).2.files).map toName8,
        (openDirectory (openArchive w).2).2)).2 = (openDirectory (openArchive w).2).2 := by
      split_ifs <;> rfl
    simp only [this, openDirectory_log, openArchive_log, h1, List.append_assoc,
      List.singleton_append]
  · rw [if_pos h1, if_pos h1, openArchive_log, h1]

/-- When the archive and the directory open, `listPayloads` returns the converted names of
the directory entries. -/
theorem listPayloads_of_ok {w : World}
    (hok : ∀ e ∈ World.since w (listPayloads w).2, e.ok = true) :
    (listPayloads w).1 = (directoryEntries w.files).map toName8 := by
  rw [since_of_log_eq (listPayloads_log w)] at hok
  have h1 : (openArchive w).1 = true := by
    rcases Bool.eq_false_or_eq_true (openArchive w).1 with h | h
    · exact h
    · exact absurd (hok (Event.openArchive false)
        (by rw [if_pos h]; exact List.mem_singleton.mpr rfl)) Bool.false_ne_true
  have h2 : (openDirectory (openArchive w).2).1 = true :=
    hok (Event.openDirectory (openDirectory (openArchive w).2).1)
      (by rw [if_neg (by rw [h1]; decide)]; simp)
  simp only [listPayloads]
  rw [if_neg (by rw [h1]; decide), if_neg (by rw [h2]; decide)]
  rfl

/-- Resolution goes through a path piece by piece at a character that is not a slash. -/
theorem resolve_append_cons (u : Str) (c : Char) (x : Str) (hc : c ≠ '/') :
    resolve (u ++ c :: x) = resolve (u ++ [c]) ++ resolve x := by
  induction u with
  | nil =>
    rw [List.nil_append, List.nil_append, resolve_cons_of_not_run (fun e => hc e.1),
      resolve_cons_of_not_run (fun e => hc e.1)]
    rfl
  | cons d u ih =>
    have hhead : (u ++ c :: x).head? = (u ++ [c]).head? := by
      cases u <;> rfl
    rw [List.cons_append, List.cons_append]
    by_cases hd : d = '/' ∧ (u ++ [c]).head? = some '/'
    · rw [resolve_cons_of_run hd, resolve_cons_of_run ⟨hd.1, hhead.trans hd.2⟩, ih]
    · rw [resolve_cons_of_not_run hd,
        resolve_cons_of_not_run (fun e => hd ⟨e.1, hhead.symm.trans e.2⟩), ih,
        List.cons_append]

theorem resolve_start (x : Str) :
    resolve (PayloadPath ++ "start".toList ++ x) =
      "/luma/payloads/start".toList ++ resolve x := by
  have h1 : PayloadPath ++ "start".toList ++ x =
      "/luma/payloads/star".toList ++ 't' :: x := rfl
  have h2 : resolve ("/luma/payloads/star".toList ++ ['t']) =
      "/luma/payloads/start".toList := by decide
  rw [h1, resolve_append_cons _ _ _ (by decide), h2]

theorem resolve_def (y : Str) :
    resolve (PayloadPath ++ ("def".toList ++ y)) =
      "/luma/payloads/def".toList ++ resolve y := by
  have h1 : PayloadPath ++ ("def".toList ++ y) =
      "/luma/payloads/de".toList ++ 'f' :: y := rfl
  have h2 : resolve ("/luma/payloads/de".toList ++ ['f']) =
      "/luma/payloads/def".toList := by decide
  rw [h1, resolve_append_cons _ _ _ (by decide), h2]

theorem resolve_in_payloads (x : Str) :
    resolve (PayloadPath ++ x) = "/luma/payloads".toList ++ resolve ('/' :: x) := by
  have h1 : PayloadPath ++ x = "/luma/payload".toList ++ 's' :: ('/' :: x) := rfl
  have h2 : resolve ("/luma/payload".toList ++ ['s']) = "/luma/payloads".toList := by decide
  rw [h1, resolve_append_cons _ _ _ (by decide), h2]

theorem start_ne_def (x y : Str) :
    resolve (PayloadPath ++ "start".toList ++ x) ≠
      resolve (PayloadPath ++ ("def".toList ++ y)) := by
  rw [resolve_start, resolve_def]
  intro h
  simp at h

theorem def_same_iff_start_same (x y : Str) :
    resolve (PayloadPath ++ ("def".toList ++ x)) =
        resolve (PayloadPath ++ ("def".toList ++ y)) ↔
      resolve (PayloadPath ++ "start".toList ++ x) =
        resolve (PayloadPath ++ "start".toList ++ y) := by
  rw [resolve_start, resolve_start, resolve_def, resolve_def]
  constructor
  · intro h
    rw [List.append_cancel_left h]
  · intro h
    rw [List.append_cancel_left h]

theorem findAndRename_of_exists {o n : Str} {w : World} {c : Bytes}
    (h : readFile w.files (PayloadPath ++ o) = some c) :
    findAndRename o n w = stdRename (PayloadPath ++ o) (PayloadPath ++ n) w := by
  unfold findAndRename fileExists
  simp only [h, Option.isSome_some, if_true]

theorem lumaMigratePayloads_fst_true {w : World}
    (h : (findAndRename "default.bin".toList "def.bin".toList w).1 = true) :
    lumaMigratePayloads w = (true,
      (findAndRenamePrefix
        (listPayloads (findAndRename "default.bin".toList "def.bin".toList w).2).1
        "def".toList "start".toList
        (listPayloads (findAndRename "default.bin".toList "def.bin".toList w).2).2).2) := by
  simp only [lumaMigratePayloads, h, findAndRenamePrefix_fst, Bool.true_eq_false, if_false]

theorem lumaMigratePayloads_fst_false {w : World}
    (h : (findAndRename "default.bin".toList "def.bin".toList w).1 = false) :
    lumaMigratePayloads w =
      (false, (findAndRename "default.bin".toList "def.bin".toList w).2) := by
  simp only [lumaMigratePayloads, h, if_true]

theorem listPayloads_grows (w : World) : w.log <+: (listPayloads w).2.log :=
  ⟨_, (listPayloads_log w).symm⟩

theorem lumaMigratePayloads_grows (w : World) : w.log <+: (lumaMigratePayloads w).2.log := by
  have hfind : w.log <+: (findAndRename "default.bin".toList "def.bin".toList w).2.log := by
    simp only [findAndRename]
    split_ifs
    · exact stdRename_grows _ _ w
    · exact List.prefix_refl _
  rcases Bool.eq_false_or_eq_true
    (findAndRename "default.bin".toList "def.bin".toList w).1 with h | h
  · rw [lumaMigratePayloads_fst_true h]
    exact hfind.trans ((listPayloads_grows _).trans (findAndRenamePrefix_grows _ _ _ _))
  · rw [lumaMigratePayloads_fst_false h]
    exact hfind

/-- The migration only touches files inside the payload directory. -/
theorem lumaMigratePayloads_readFile_outside (w : World) {q : Str}
    (hq : ∀ x, resolve q ≠ resolve (PayloadPath ++ x)) :
    readFile (lumaMigratePayloads w).2.files q = readFile w.files q := by
  have hfind : readFile (findAndRename "default.bin".toList "def.bin".toList w).2.files q =
      readFile w.files q := by
    simp only [findAndRename]
    split_ifs
    · exact stdRename_readFile_other _ _ w (hq _) (hq _)
    · rfl
  rcases Bool.eq_false_or_eq_true
    (findAndRename "default.bin".toList "def.bin".toList w).1 with h | h
  · rw [lumaMigratePayloads_fst_true h]
    simp only []
    rw [findAndRenamePrefix_readFile_outside _ _ _ _ hq, listPayloads_files, hfind]
  · rw [lumaMigratePayloads_fst_false h]
    exact hfind

/-- C5: amended.  When `default.bin` and `def_extra.bin` are in the payload directory and
every call of the run succeeds (the renames, and the opening of the archive and of the
directory for the enumeration), after `lumaMigratePayloads`: `default.bin` is gone,
`def.bin` is gone as well, `start.bin` holds the bytes `default.bin` had, `def_extra.bin` is
gone and `start_extra.bin` holds the bytes `def_extra.bin` had. -/
theorem lumaMigratePayloads_default_becomes_start (w : World) (a b : Bytes)
    (hd : readFile w.files (PayloadPath ++ "default.bin".toList) = some a)
    (hx : readFile w.files (PayloadPath ++ "def_extra.bin".toList) = some b)
    (hok : ∀ e ∈ World.since w (lumaMigratePayloads w).2, e.ok = true) :
    (lumaMigratePayloads w).1 = true ∧
    readFile (lumaMigratePayloads w).2.files (PayloadPath ++ "default.bin".toList) = none ∧
    readFile (lumaMigratePayloads w).2.files (PayloadPath ++ "def.bin".toList) = none ∧
    readFile (lumaMigratePayloads w).2.files (PayloadPath ++ "start.bin".toList) = some a ∧
    readFile (lumaMigratePayloads w).2.files (PayloadPath ++ "def_extra.bin".toList) = none ∧
    readFile (lumaMigratePayloads w).2.files (PayloadPath ++ "start_extra.bin".toList)
      = some b := by
  have hfr : findAndRename "default.bin".toList "def.bin".toList w =
      stdRename (PayloadPath ++ "default.bin".toList) (PayloadPath ++ "def.bin".toList) w :=
    findAndRename_of_exists hd
  -- the first rename succeeded
  have h1 : (stdRename (PayloadPath ++ "default.bin".toList)
      (PayloadPath ++ "def.bin".toList) w).1 = true := by
    rcases Bool.eq_false_or_eq_true (stdRename (PayloadPath ++ "default.bin".toList)
      (PayloadPath ++ "def.bin".toList) w).1 with h | h
    · exact h
    · rw [lumaMigratePayloads_fst_false (by rw [hfr]; exact h), hfr] at hok
      simp only [] at hok
      rw [since_stdRename] at hok
      exact hok _ (List.mem_singleton.mpr rfl)
  rw [lumaMigratePayloads_fst_true (by rw [hfr]; exact h1), hfr] at hok ⊢
  simp only [] at hok ⊢
  obtain ⟨-, hok1⟩ := ok_after_stdRename
    ((listPayloads_grows _).trans (findAndRenamePrefix_grows _ _ _ _)) hok
  rw [since_append (listPayloads_grows _) (findAndRenamePrefix_grows _ _ _ _)] at hok1
  have hokL := fun e he => hok1 e (List.mem_append_left _ he)
  have hokF := fun e he => hok1 e (List.mem_append_right _ he)
  -- storage after the first rename
  have e1 : resolve (PayloadPath ++ "def_extra.bin".toList) ≠
      resolve (PayloadPath ++ "default.bin".toList) := by decide
  have e2 : resolve (PayloadPath ++ "def_extra.bin".toList) ≠
      resolve (PayloadPath ++ "def.bin".toList) := by decide
  have e3 : resolve (PayloadPath ++ "default.bin".toList) ≠
      resolve (PayloadPath ++ "def.bin".toList) := by decide
  have hdf : readFile (listPayloads (stdRename (PayloadPath ++ "default.bin".toList)
      (PayloadPath ++ "def.bin".toList) w).2).2.files (PayloadPath ++ "def.bin".toList)
      = some a := by
    rw [listPayloads_files, stdRename_readFile_true h1, if_pos rfl, hd]
  have hdx : readFile (listPayloads (stdRename (PayloadPath ++ "default.bin".toList)
      (PayloadPath ++ "def.bin".toList) w).2).2.files (PayloadPath ++ "def_extra.bin".toList)
      = some b := by
    rw [listPayloads_files, stdRename_readFile_other _ _ w e1 e2, hx]
  have hdd : readFile (listPayloads (stdRename (PayloadPath ++ "default.bin".toList)
      (PayloadPath ++ "def.bin".toList) w).2).2.files (PayloadPath ++ "default.bin".toList)
      = none := by
    rw [listPayloads_files, stdRename_readFile_true h1, if_neg e3, if_pos rfl]
  -- the enumeration lists both names
  have hL := listPayloads_of_ok hokL
  have hm1 : "def.bin".toList ∈ (listPayloads (stdRename (PayloadPath ++ "default.bin".toList)
      (PayloadPath ++ "def.bin".toList) w).2).1 := by
    rw [hL]
    rw [listPayloads_files] at hdf
    exact List.mem_map.mpr ⟨_, mem_directoryEntries hdf (by decide) (by decide), by decide⟩
  have hm2 : "def_extra.bin".toList ∈ (listPayloads
      (stdRename (PayloadPath ++ "default.bin".toList)
      (PayloadPath ++ "def.bin".toList) w).2).1 := by
    rw [hL]
    rw [listPayloads_files] at hdx
    exact List.mem_map.mpr ⟨_, mem_directoryEntries hdx (by decide) (by decide), by decide⟩
  have r1 := findAndRenamePrefix_moves _ "def".toList "start".toList start_ne_def
    def_same_iff_start_same _ _ a hm1
    (by decide) hdf hokF
  have r2 := findAndRenamePrefix_moves _ "def".toList "start".toList start_ne_def
    def_same_iff_start_same _ _ b hm2
    (by decide) hdx hokF
  have r3 := findAndRenamePrefix_readFile_none
    (listPayloads (stdRename (PayloadPath ++ "default.bin".toList)
      (PayloadPath ++ "def.bin".toList) w).2).1 "def".toList "start".toList _
    (fun x => payload_target_ne_source (f := "default.bin".toList) start_ne_def (by decide) x)
    hdd
  exact ⟨trivial, r3, r1.1, r1.2, r2.1, r2.2⟩

theorem lumaMigratePayloads_default_becomes_start_witness :
    readFile legacyWorld.files (PayloadPath ++ "default.bin".toList) = some [1] ∧
    readFile (lumaMigratePayloads legacyWorld).2.files
      (PayloadPath ++ "start.bin".toList) = some [1] ∧
    readFile (lumaMigratePayloads legacyWorld).2.files
      (PayloadPath ++ "start_extra.bin".toList) = some [2] :=
  have h := lumaMigratePayloads_default_becomes_start legacyWorld [1] [2]
    (by decide) (by decide) (by decide)
  ⟨by decide, h.2.2.2.1, h.2.2.2.2.2⟩

/-- C5: counterexample.  In a payload directory that holds `default.bin` and
`def_extra.bin`, every call of the migration succeeds, and afterwards there is no file
`def.bin`: the bytes of `default.bin` are at `start.bin`. -/
theorem lumaMigratePayloads_def_bin_absent :
    readFile legacyWorld.files (PayloadPath ++ "default.bin".toList) = some [1] ∧
    readFile legacyWorld.files (PayloadPath ++ "def_extra.bin".toList) = some [2] ∧
    ((lumaMigratePayloads legacyWorld).2.log.all fun e => e.ok) = true ∧
    ¬ readFile (lumaMigratePayloads legacyWorld).2.files
        (PayloadPath ++ "def.bin".toList) = some [1] ∧
    readFile (lumaMigratePayloads legacyWorld).2.files
        (PayloadPath ++ "start.bin".toList) = some [1] := by
  decide

/-! ## Update lemmas -/

theorem snoc_grows {w w1 w2 : World} {es : List Event} (h : w.log <+: w1.log)
    (h2 : w2.log = w1.log ++ es) : w.log <+: w2.log := by
  rw [h2]
  exact h.trans (List.prefix_append _ _)

theorem since_snoc {w w1 w2 : World} {es : List Event} (h : w.log <+: w1.log)
    (h2 : w2.log = w1.log ++ es) : World.since w w2 = World.since w w1 ++ es := by
  rw [since_append h ⟨es, h2.symm⟩, since_of_log_eq h2]

theorem since_self (w : World) : World.since w w = [] := by
  simp [World.since]

theorem backupA9LH_grows (p : Str) (w : World) : w.log <+: (backupA9LH p w).2.log :=
  ⟨_, (backupA9LH_log p w).symm⟩

theorem backupStep_grows (args : UpdateArgs) (w : World) :
    w.log <+: (backupStep args w).2.log := by
  unfold backupStep
  split_ifs
  · exact List.prefix_refl _
  · exact List.prefix_refl _
  · exact backupA9LH_grows _ _

theorem backupStep_onlyWrites (args : UpdateArgs) (w : World) :
    ∀ e ∈ World.since w (backupStep args w).2,
      e.onlyWrites (args.payloadPath ++ ".bak".toList) = true := by
  unfold backupStep
  split_ifs
  · rw [since_self]; intro e he; exact absurd he (List.not_mem_nil _)
  · rw [since_self]; intro e he; exact absurd he (List.not_mem_nil _)
  · rw [since_of_log_eq (backupA9LH_log _ _)]
    split_ifs <;> simp [Event.onlyWrites]

theorem update_of_steps_ok {env : Env} {args : UpdateArgs} {w : World}
    (hb : (backupStep args w).1 = true)
    (hg : (env.releaseGetPayload args.choice.chosenVersion args.choice.isHourly).ret = true)
    (hp : (patchStep env args
      (env.releaseGetPayload args.choice.chosenVersion args.choice.isHourly)
      ((backupStep args w).2.record (Event.fetch true))).1 = true)
    (ha : (arnStep env args (patchStep env args
      (env.releaseGetPayload args.choice.chosenVersion args.choice.isHourly)
      ((backupStep args w).2.record (Event.fetch true))).2.2).1 = true) :
    update env args w = (true,
      streamWrite
        (openWrite (a9lhfilePath args) (lumaMigratePayloads (arnStep env args
          (patchStep env args
            (env.releaseGetPayload args.choice.chosenVersion args.choice.isHourly)
            ((backupStep args w).2.record (Event.fetch true))).2.2).2).2).1
        (a9lhfilePath args)
        ((patchStep env args
            (env.releaseGetPayload args.choice.chosenVersion args.choice.isHourly)
            ((backupStep args w).2.record (Event.fetch true))).2.1.take
          (env.releaseGetPayload args.choice.chosenVersion args.choice.isHourly).payloadSize)
        (openWrite (a9lhfilePath args) (lumaMigratePayloads (arnStep env args
          (patchStep env args
            (env.releaseGetPayload args.choice.chosenVersion args.choice.isHourly)
            ((backupStep args w).2.record (Event.fetch true))).2.2).2).2).2) := by
  simp only [update, hb, hg, hp, ha, Bool.true_eq_false, if_false]

theorem findAndRenamePrefix_since_renames (files : List Str) (o n : Str) (w : World) :
    ∀ e ∈ World.since w (findAndRenamePrefix files o n w).2,
      ∃ a b ok, e = Event.rename a b ok := by
  induction files generalizing w with
  | nil =>
    unfold findAndRenamePrefix
    rw [since_self]
    intro e he
    exact absurd he (List.not_mem_nil _)
  | cons f rest ih =>
    unfold findAndRenamePrefix
    split_ifs
    · rw [since_append (stdRename_grows _ _ w) (findAndRenamePrefix_grows _ _ _ _),
        since_stdRename]
      intro e he
      rcases List.mem_append.mp he with h | h
      · exact ⟨_, _, _, List.mem_singleton.mp h⟩
      · exact ih _ e h
    · exact ih w

/-- The migration never calls the patch collaborator. -/
theorem lumaMigratePayloads_since_no_patch (w : World) (ok : Bool) :
    Event.patch ok ∉ World.since w (lumaMigratePayloads w).2 := by
  have hfind : w.log <+: (findAndRename "default.bin".toList "def.bin".toList w).2.log ∧
      Event.patch ok ∉
        World.since w (findAndRename "default.bin".toList "def.bin".toList w).2 := by
    simp only [findAndRename]
    split_ifs
    · refine ⟨stdRename_grows _ _ w, ?_⟩
      rw [since_stdRename]
      simp
    · refine ⟨List.prefix_refl _, ?_⟩
      rw [since_self]
      simp
  rcases Bool.eq_false_or_eq_true
    (findAndRename "default.bin".toList "def.bin".toList w).1 with h | h
  · rw [lumaMigratePayloads_fst_true h]
    simp only []
    rw [since_append hfind.1 ((listPayloads_grows _).trans
        (findAndRenamePrefix_grows _ _ _ _)),
      since_append (listPayloads_grows _) (findAndRenamePrefix_grows _ _ _ _),
      since_of_log_eq (listPayloads_log _)]
    intro hmem
    rcases List.mem_append.mp hmem with h1 | h1
    · exact hfind.2 h1
    · rcases List.mem_append.mp h1 with h2 | h2
      · split_ifs at h2 <;> simp at h2
      · obtain ⟨a, b, r, hr⟩ := findAndRenamePrefix_since_renames _ _ _ _ _ h2
        exact Event.noConfusion hr
  · rw [lumaMigratePayloads_fst_false h]
    exact hfind.2

/-- C4: with backup-on-update enabled, a payload at the install path, the install path
equal to the default path, no AuReiNand migration needed, and the backup and the fetch
succeeding, `update` never calls the patch collaborator and returns success, the
orchestrator moves from `Updating` to `UpdateComplete`, and afterwards the file at install
path + ".bak" holds the bytes the install path held before the update. -/
theorem update_default_path_backs_up_without_patch (env : Env) (m : Machine) (c : Bytes)
    (hstate : m.state = .Updating)
    (hbackup : m.updateArgs.backupExisting = true)
    (hfile : readFile m.world.files m.updateArgs.payloadPath = some c)
    (hpath : m.updateArgs.payloadPath = "/".toList ++ PAYLOADPATH)
    (hmig : m.updateArgs.migrateARN = false)
    (hbak : (backupA9LH m.updateArgs.payloadPath m.world).1 = true)
    (hfetch : (env.releaseGetPayload m.updateArgs.choice.chosenVersion
      m.updateArgs.choice.isHourly).ret = true) :
    (update env m.updateArgs m.world).1 = true ∧
    (∀ ok, Event.patch ok ∉ World.since m.world (update env m.updateArgs m.world).2) ∧
    readFile (update env m.updateArgs m.world).2.files
      (m.updateArgs.payloadPath ++ ".bak".toList) = some c ∧
    ∃ m', mainStep env m = .ok m' ∧ m'.state = .UpdateComplete ∧
      m'.world = (update env m.updateArgs m.world).2 := by
  have hstep := mainStep_updating env m hstate
  have hbs : backupStep m.updateArgs m.world = backupA9LH m.updateArgs.payloadPath m.world := by
    simp only [backupStep, hbackup, fileExists, hfile, Option.isSome_some,
      Bool.true_eq_false, if_false]
  have hb : (backupStep m.updateArgs m.world).1 = true := by rw [hbs]; exact hbak
  have hp : ∀ w1 : World, patchStep env m.updateArgs
      (env.releaseGetPayload m.updateArgs.choice.chosenVersion m.updateArgs.choice.isHourly)
      w1 = (true, (env.releaseGetPayload m.updateArgs.choice.chosenVersion
        m.updateArgs.choice.isHourly).payloadData.drop
        (env.releaseGetPayload m.updateArgs.choice.chosenVersion
          m.updateArgs.choice.isHourly).offset, w1) := by
    intro w1
    unfold patchStep
    rw [if_neg (by rw [hpath]; exact fun h => h rfl)]
  have ha : ∀ w1 : World, arnStep env m.updateArgs w1 = (true, w1) := by
    intro w1
    unfold arnStep
    rw [if_neg (by rw [hmig]; decide)]
  have hu := @update_of_steps_ok env _ _ hb hfetch (by rw [hp]) (by rw [hp, ha])
  rw [hp, ha] at hu
  simp only [] at hu
  have hpre1 : m.world.log <+:
      ((backupStep m.updateArgs m.world).2.record (Event.fetch true)).log :=
    @snoc_grows _ _ ((backupStep m.updateArgs m.world).2.record (Event.fetch true)) _
      (backupStep_grows _ _) rfl
  have hpre2 := hpre1.trans (lumaMigratePayloads_grows _)
  have hpre3 := snoc_grows hpre2 (openWrite_log (a9lhfilePath m.updateArgs) _)
  have hout : ∀ x, resolve (m.updateArgs.payloadPath ++ ".bak".toList) ≠
      resolve (PayloadPath ++ x) := by
    intro x
    have hbk : resolve ("/".toList ++ PAYLOADPATH ++ ".bak".toList) =
        "/luma/payload.bin.bak".toList := by decide
    rw [hpath, resolve_in_payloads, hbk]
    intro h
    simp at h
  refine ⟨by rw [hu], ?_, ?_, _, hstep, ?_, rfl⟩
  · intro ok hmem
    rw [hu] at hmem
    simp only [] at hmem
    rw [since_snoc hpre3 (streamWrite_log _ _ _ _),
      since_snoc hpre2 (openWrite_log _ _),
      since_append hpre1 (lumaMigratePayloads_grows _),
      @since_snoc _ _ ((backupStep m.updateArgs m.world).2.record (Event.fetch true)) _
        (backupStep_grows _ _) rfl] at hmem
    simp only [List.mem_append, List.mem_singleton, reduceCtorEq, or_false] at hmem
    rcases hmem with h | h
    · have := backupStep_onlyWrites m.updateArgs m.world _ h
      rw [hbs, since_of_log_eq (backupA9LH_log _ _)] at h
      split_ifs at h <;> simp at h
    · exact lumaMigratePayloads_since_no_patch _ ok h
  · rw [hu]
    simp only [streamWrite, openWrite_files]
    have hne : resolve (m.updateArgs.payloadPath ++ ".bak".toList) ≠
        resolve (a9lhfilePath m.updateArgs) := by
      simp only [a9lhfilePath, hpath]
      decide
    have hlm : readFile (lumaMigratePayloads
        ((backupStep m.updateArgs m.world).2.record (Event.fetch true))).2.files
        (m.updateArgs.payloadPath ++ ".bak".toList) = some c := by
      rw [lumaMigratePayloads_readFile_outside _ hout]
      simp only [World.record]
      rw [hbs, backupA9LH_true hbak, if_pos rfl, hfile]
    split_ifs
    · rw [readFile_putFile, if_neg hne, readFile_putFile, if_neg hne, hlm]
    · exact hlm
  · simp only [hu, if_true]

theorem update_default_path_backs_up_without_patch_witness :
    readFile updatingMachine.world.files updatingMachine.updateArgs.payloadPath
      = some [1, 2, 3] ∧
    readFile (update sampleEnv updatingMachine.updateArgs updatingMachine.world).2.files
      "/luma/payload.bin.bak".toList = some [1, 2, 3] :=
  ⟨by decide,
   (update_default_path_backs_up_without_patch sampleEnv updatingMachine [1, 2, 3] rfl
      (by decide) (by decide) (by decide) (by decide) (by decide) (by decide)).2.2.1⟩

theorem wrapLoop_spec (n : Int) (hn : 1 ≤ n) (fuel : Nat) (s : Int)
    (hfuel : (-s).toNat ≤ fuel) :
    ∃ r, wrapLoop n fuel s = .ok r ∧ 0 ≤ r ∧ r % n = s % n ∧ (0 ≤ s → r = s) ∧
      (s < 0 → r < n) := by
  induction fuel generalizing s with
  | zero =>
    have hs : 0 ≤ s := by omega
    refine ⟨s, ?_, hs, rfl, fun _ => rfl, fun h => absurd h (by omega)⟩
    unfold wrapLoop
    rw [if_neg (by omega)]
  | succ k ih =>
    unfold wrapLoop
    by_cases hs : s < 0
    · rw [if_pos hs]
      obtain ⟨r, hr, h0, hmod, hnn, hneg⟩ := ih (s + n) (by omega)
      refine ⟨r, hr, h0, ?_, fun h => absurd hs (by omega), fun _ => ?_⟩
      · rw [hmod, Int.add_emod_self]
      · by_cases h2 : s + n < 0
        · exact hneg h2
        · rw [hnn (by omega)]
          omega
    · rw [if_neg hs]
      exact ⟨s, rfl, by omega, rfl, fun _ => rfl, fun h => absurd h hs⟩

theorem layout_of_wrapLoop (args : UpdateArgs) (stable : ReleaseInfo) (ui : Ui) (r : Int)
    (hr : wrapLoop (optionCount args stable) (-ui.selected).toNat ui.selected = .ok r)
    (hne : ¬ optionCount args stable = 0) :
    layout args stable ui = .ok
      { redraw := false, partialredraw := false,
        selected := r.tmod (optionCount args stable),
        hourlyOptionStart := (stable.versions.length : Int),
        extraOptionStart :=
          match args.hourly with
          | some hourly => (stable.versions.length : Int) + hourly.versions.length
          | none => (stable.versions.length : Int) } := by
  simp only [layout, hr, hne, bind, Except.bind, if_false, pure, Except.pure]

/-- With at least one option the cursor wrap of `layout` is the remainder of the
mathematical division by the number of options. -/
theorem layout_selected (args : UpdateArgs) (stable : ReleaseInfo) (ui : Ui)
    (hn : 1 ≤ optionCount args stable) :
    ∃ ui', layout args stable ui = .ok ui' ∧
      ui'.selected = ui.selected % optionCount args stable := by
  obtain ⟨r, hr, h0, hmod, -, hneg⟩ :=
    wrapLoop_spec (optionCount args stable) hn (-ui.selected).toNat ui.selected (le_refl _)
  have hne : ¬ optionCount args stable = 0 := by omega
  refine ⟨_, layout_of_wrapLoop args stable ui r hr hne, ?_⟩
  simp only []
  rw [Int.tmod_eq_emod h0 (by omega), hmod]

/-- A frame in which a move key is down and `KEY_A` is not: the cursor moves by the
displacement of the keys and is wrapped into the range of the options. -/
theorem drawConfirmationScreen_move (args : UpdateArgs) (stable : ReleaseInfo)
    (usingConfig : Bool) (ui : Ui) (hid : Hid) (hstable : args.stable = some stable)
    (hn : 1 ≤ optionCount args stable) (hmove : hid.down.up = true ∨ hid.down.down = true)
    (ha : hid.down.a = false) :
    ∃ d, drawConfirmationScreen args usingConfig ui hid = .ok d ∧
      d.ui.selected = (ui.selected + cursorDelta hid.down) % optionCount args stable ∧
      d.choice = noChoice ∧ d.hid = hid := by
  have hm : (moveCursor hid.down ui).partialredraw = true ∧
      (moveCursor hid.down ui).selected = ui.selected + cursorDelta hid.down := by
    unfold moveCursor cursorDelta
    rw [if_pos hmove]
    rcases Bool.eq_false_or_eq_true hid.down.up with h1 | h1
    · rcases Bool.eq_false_or_eq_true hid.down.down with h2 | h2
      · simp [h1, h2]
      · simp [h1, h2]
        omega
    · rcases Bool.eq_false_or_eq_true hid.down.down with h2 | h2
      · simp [h1, h2]
      · simp [h1, h2]
  obtain ⟨ui', hl, hsel⟩ := layout_selected args stable (moveCursor hid.down ui) hn
  refine ⟨{ choice := noChoice, ui := ui', hid := hid }, ?_, ?_, rfl, rfl⟩
  · simp only [drawConfirmationScreen, hstable, deref, bind, Except.bind, ha, hm.1, hl,
      Bool.false_eq_true, if_false, and_false, pure, Except.pure, Bool.true_eq_false]
  · simp only []
    rw [hsel, hm.2]

theorem drawTicks_moves (args : UpdateArgs) (stable : ReleaseInfo) (usingConfig : Bool)
    (hstable : args.stable = some stable) (hn : 1 ≤ optionCount args stable)
    (keys : List Keys)
    (hkeys : ∀ k ∈ keys, (k.up = true ∨ k.down = true) ∧ k.a = false)
    (ui : Ui) (hid : Hid)
    (hsel : 0 ≤ ui.selected ∧ ui.selected < optionCount args stable) :
    ∃ ui', drawTicks args usingConfig keys ui hid = .ok ui' ∧
      ui'.selected = (ui.selected + (keys.map cursorDelta).sum) % optionCount args stable := by
  induction keys generalizing ui hid with
  | nil =>
    refine ⟨ui, rfl, ?_⟩
    simp only [List.map_nil, List.sum_nil, add_zero]
    exact (Int.emod_eq_of_lt hsel.1 hsel.2).symm
  | cons k rest ih =>
    obtain ⟨hk, ha⟩ := hkeys k (List.mem_cons_self _ _)
    obtain ⟨d, hd, hdsel, -, -⟩ := drawConfirmationScreen_move args stable usingConfig ui
      { hid with down := k } hstable hn hk ha
    have hrange : 0 ≤ d.ui.selected ∧ d.ui.selected < optionCount args stable := by
      rw [hdsel]
      exact ⟨Int.emod_nonneg _ (by omega), Int.emod_lt_of_pos _ (by omega)⟩
    obtain ⟨ui', hrun, hfin⟩ := ih (fun k hk => hkeys k (List.mem_cons_of_mem _ hk))
      d.ui d.hid hrange
    refine ⟨ui', ?_, ?_⟩
    · simp only [drawTicks, hd, hrun]
    · rw [hfin, hdsel, List.map_cons, List.sum_cons, Int.emod_add_emod]
      simp only [add_assoc]

/-- C9: with at least one option and the cursor in range, `N` frames of "move down"
followed by `N` frames of "move up", none with `KEY_A`, leave the cursor where it was,
and after every one of those frames the cursor is in `[0, optionCount)`. -/
theorem cursor_down_then_up_returns (args : UpdateArgs) (stable : ReleaseInfo)
    (usingConfig : Bool) (ui : Ui) (hid : Hid) (downs ups : List Keys)
    (hstable : args.stable = some stable) (hn : 1 ≤ optionCount args stable)
    (hsel : 0 ≤ ui.selected ∧ ui.selected < optionCount args stable)
    (hdowns : ∀ k ∈ downs, k.down = true ∧ k.up = false ∧ k.a = false)
    (hups : ∀ k ∈ ups, k.up = true ∧ k.down = false ∧ k.a = false)
    (hlen : downs.length = ups.length) :
    (∃ ui', drawTicks args usingConfig (downs ++ ups) ui hid = .ok ui' ∧
      ui'.selected = ui.selected) ∧
    ∀ frames, frames <+: downs ++ ups → frames ≠ [] →
      ∃ ui', drawTicks args usingConfig frames ui hid = .ok ui' ∧
        0 ≤ ui'.selected ∧ ui'.selected < optionCount args stable := by
  have hall : ∀ k ∈ downs ++ ups, (k.up = true ∨ k.down = true) ∧ k.a = false := by
    intro k hk
    rcases List.mem_append.mp hk with h | h
    · exact ⟨Or.inr (hdowns k h).1, (hdowns k h).2.2⟩
    · exact ⟨Or.inl (hups k h).1, (hups k h).2.2⟩
  have hsumD : (downs.map cursorDelta).sum = downs.length := by
    clear hlen
    induction downs with
    | nil => rfl
    | cons k rest ih =>
      obtain ⟨h1, h2, -⟩ := hdowns k (List.mem_cons_self _ _)
      rw [List.map_cons, List.sum_cons,
        ih (fun k hk => hdowns k (List.mem_cons_of_mem _ hk))
          (fun k hk => hall k (List.mem_cons_of_mem _ hk))]
      simp only [cursorDelta, h1, h2, if_true, List.length_cons, Nat.cast_add, Nat.cast_one,
        Bool.false_eq_true, if_false]
      omega
  have hsumU : (ups.map cursorDelta).sum = -(ups.length : Int) := by
    clear hlen
    induction ups with
    | nil => rfl
    | cons k rest ih =>
      obtain ⟨h1, h2, -⟩ := hups k (List.mem_cons_self _ _)
      rw [List.map_cons, List.sum_cons,
        ih (fun k hk => hups k (List.mem_cons_of_mem _ hk))
          (fun k hk => hall k (by
            rcases List.mem_append.mp hk with h | h
            · exact List.mem_append_left _ h
            · exact List.mem_append_right _ (List.mem_cons_of_mem _ h)))]
      simp only [cursorDelta, h1, h2, if_true, List.length_cons, Nat.cast_add, Nat.cast_one,
        Bool.false_eq_true, if_false]
      omega
  constructor
  · obtain ⟨ui', hrun, hfin⟩ := drawTicks_moves args stable usingConfig hstable hn
      (downs ++ ups) hall ui hid hsel
    refine ⟨ui', hrun, ?_⟩
    rw [hfin, List.map_append, List.sum_append, hsumD, hsumU, hlen]
    simp only [add_neg_cancel, add_zero]
    exact Int.emod_eq_of_lt hsel.1 hsel.2
  · intro frames hpre _
    obtain ⟨ui', hrun, hfin⟩ := drawTicks_moves args stable usingConfig hstable hn
      frames (fun k hk => hall k (hpre.subset hk)) ui hid hsel
    refine ⟨ui', hrun, ?_⟩
    rw [hfin]
    exact ⟨Int.emod_nonneg _ (by omega), Int.emod_lt_of_pos _ (by omega)⟩

theorem cursor_down_then_up_returns_witness :
    (0 : Int) ≤ 2 ∧ (2 : Int) < optionCount cursorArgs cursorStable ∧
    ∃ ui', drawTicks cursorArgs false
        ([keyDown, keyDown, keyDown, keyDown] ++ [keyUp, keyUp, keyUp, keyUp])
        { redraw := false, partialredraw := false, selected := 2,
          hourlyOptionStart := 2, extraOptionStart := 2 }
        { down := noKeys, apt := [], scans := [] } = .ok ui' ∧ ui'.selected = 2 :=
  ⟨by decide, by decide,
   (cursor_down_then_up_returns cursorArgs cursorStable false
      { redraw := false, partialredraw := false, selected := 2,
        hourlyOptionStart := 2, extraOptionStart := 2 }
      { down := noKeys, apt := [], scans := [] }
      [keyDown, keyDown, keyDown, keyDown] [keyUp, keyUp, keyUp, keyUp]
      rfl (by decide) (by decide) (by decide) (by decide) rfl).1⟩

/-! ## Choice mapping and orchestrator lemmas -/

theorem confirm_type_of_no_backup {args : UpdateArgs} {stable : ReleaseInfo} {ui : Ui}
    {hid : Hid} {d : Drawn} (hno : args.backupExists = false)
    (h : confirm args stable ui hid = .ok d) : d.choice.type ≠ .RestoreBackup := by
  unfold confirm at h
  split_ifs at h with h1 h2
  · cases hv : vectorAt stable.versions ui.selected with
    | error f => simp [hv, bind, Except.bind] at h
    | ok v =>
      simp only [hv, bind, Except.bind, pure, Except.pure, Except.ok.injEq] at h
      rw [← h]
      simp [noChoice]
  · cases hh : deref args.hourly with
    | error f => simp [hh, bind, Except.bind] at h
    | ok hourly =>
      cases hv : vectorAt hourly.versions (ui.selected - ui.hourlyOptionStart) with
      | error f => simp [hh, hv, bind, Except.bind] at h
      | ok v =>
        simp only [hh, hv, bind, Except.bind, pure, Except.pure, Except.ok.injEq] at h
        rw [← h]
        simp [noChoice]
  · simp only [hno, if_true, pure, Except.pure] at h
    split_ifs at h with h3
    · omega
    · simp only [Except.ok.injEq] at h
      rw [← h]
      simp [noChoice]

theorem drawConfirmationScreen_type_of_no_backup {args : UpdateArgs} {usingConfig : Bool}
    {ui : Ui} {hid : Hid} {d : Drawn} (hno : args.backupExists = false)
    (h : drawConfirmationScreen args usingConfig ui hid = .ok d) :
    d.choice.type ≠ .RestoreBackup := by
  unfold drawConfirmationScreen at h
  cases hs : args.stable with
  | none => simp [hs, deref, bind, Except.bind] at h
  | some stable =>
    simp only [hs, deref, bind, Except.bind] at h
    split_ifs at h with h1 h2
    · exact confirm_type_of_no_backup hno h
    · simp only [pure, Except.pure, Except.ok.injEq] at h
      rw [← h]
      simp [noChoice]
    · cases hl : layout args stable (moveCursor hid.down ui) with
      | error f => simp [hl] at h
      | ok ui' =>
        simp only [hl, pure, Except.pure, Except.ok.injEq] at h
        rw [← h]
        simp [noChoice]

/-- The frame of the orchestrator in the confirmation screen. -/
theorem mainStep_confirmation {env : Env} {m m' : Machine}
    (hstate : m.state = .UpdateConfirmationScreen) (h : mainStep env m = .ok m') :
    (m.hid.down.start = true ∧ m'.state = .UpdateAborted) ∨
    (m.hid.down.start = false ∧
      ∃ d, drawConfirmationScreen m.updateArgs m.usingConfig m.ui m.hid = .ok d ∧
        m'.state = (match d.choice.type with
          | .UpdatePayload => UpdateState.Updating
          | .RestoreBackup => UpdateState.Restoring
          | .NoChoice => UpdateState.UpdateConfirmationScreen)) := by
  simp only [mainStep, hstate] at h
  split_ifs at h with hs
  · left
    simp only [pure, Except.pure, Except.ok.injEq] at h
    exact ⟨hs, by rw [← h]⟩
  · right
    refine ⟨by simpa using hs, ?_⟩
    cases hd : drawConfirmationScreen m.updateArgs m.usingConfig m.ui m.hid with
    | error f => simp [hd, bind, Except.bind] at h
    | ok d =>
      refine ⟨d, rfl, ?_⟩
      simp only [hd, bind, Except.bind] at h
      cases ht : d.choice.type <;> simp only [ht, pure, Except.pure, Except.ok.injEq] at h <;>
        rw [← h]

/-- C6: in a session state with `backupExists = false`, whatever the cursor, the option
offsets and the input, `drawConfirmationScreen` never returns the `RestoreBackup` choice,
and a frame of the orchestrator in the confirmation screen never moves to `Restoring`. -/
theorem restore_unreachable_without_backup (env : Env) (m : Machine)
    (hno : m.updateArgs.backupExists = false) :
    (∀ d, drawConfirmationScreen m.updateArgs m.usingConfig m.ui m.hid = .ok d →
      d.choice.type ≠ .RestoreBackup) ∧
    (m.state = .UpdateConfirmationScreen →
      ∀ m', mainStep env m = .ok m' → m'.state ≠ .Restoring) := by
  refine ⟨fun d hd => drawConfirmationScreen_type_of_no_backup hno hd, ?_⟩
  intro hstate m' hstep
  rcases mainStep_confirmation hstate hstep with ⟨-, h⟩ | ⟨-, d, hd, h⟩
  · rw [h]
    decide
  · have hne := drawConfirmationScreen_type_of_no_backup hno hd
    rw [h]
    cases ht : d.choice.type
    · decide
    · decide
    · exact absurd ht hne

theorem restore_unreachable_without_backup_witness :
    noBackupMachine.updateArgs.backupExists = false ∧
    mainStep sampleEnv noBackupMachine = .ok
      { noBackupMachine with
        updateArgs := { noBackupMachine.updateArgs with choice := noChoice },
        ui := { noBackupMachine.ui with redraw := true, selected := 0 } } ∧
    ({ noBackupMachine with
        updateArgs := { noBackupMachine.updateArgs with choice := noChoice },
        ui := { noBackupMachine.ui with redraw := true, selected := 0 } } : Machine).state
      ≠ .Restoring :=
  ⟨rfl, rfl,
   (restore_unreachable_without_backup sampleEnv noBackupMachine rfl).2 rfl _ rfl⟩

theorem printOnce_state (m : Machine) : (printOnce m).state = m.state := by
  unfold printOnce
  split_ifs <;> rfl

theorem rebootOnStart_state (m : Machine) : (rebootOnStart m).state = m.state := by
  unfold rebootOnStart
  split_ifs <;> rfl

/-- In every state but the confirmation screen the frame is defined, and its next state
is a function of the state and of the verdict of `update` or `restore`. -/
theorem mainStep_state_of_not_confirmation (env : Env) (m : Machine)
    (h : m.state ≠ .UpdateConfirmationScreen) :
    ∃ m', mainStep env m = .ok m' ∧
      m'.state = (match m.state with
        | .Updating =>
          if (update env m.updateArgs m.world).1 then UpdateState.UpdateComplete
          else UpdateState.UpdateFailed
        | .Restoring =>
          if (restore m.updateArgs m.world).1 then UpdateState.RestoreComplete
          else UpdateState.RestoreFailed
        | other => other) := by
  cases hs : m.state
  · exact absurd hs h
  · exact ⟨_, mainStep_updating env m hs, rfl⟩
  · exact ⟨_, by simp only [mainStep, hs]; rfl,
      by rw [rebootOnStart_state, printOnce_state, hs]⟩
  · exact ⟨_, by simp only [mainStep, hs]; rfl, by rw [printOnce_state, hs]⟩
  · exact ⟨_, by simp only [mainStep, hs]; rfl, by rw [printOnce_state, hs]⟩
  · exact ⟨_, mainStep_restoring env m hs, rfl⟩
  · exact ⟨_, by simp only [mainStep, hs]; rfl,
      by rw [rebootOnStart_state, printOnce_state, hs]⟩
  · exact ⟨_, by simp only [mainStep, hs]; rfl, by rw [printOnce_state, hs]⟩

/-- C8: every transition of the frame of the orchestrator is in the table of the spec; in
every state but the confirmation screen the frame is defined and its next state does not
depend on the `START` input; in the confirmation screen `START` moves to `UpdateAborted`. -/
theorem mainStep_transitions_in_table (env : Env) (m : Machine) :
    (∀ m', mainStep env m = .ok m' → allowedTransition m.state m'.state = true) ∧
    (m.state ≠ .UpdateConfirmationScreen →
      ∀ start, ∃ m' m'', mainStep env m = .ok m' ∧
        mainStep env (m.withStart start) = .ok m'' ∧ m''.state = m'.state) ∧
    (m.state = .UpdateConfirmationScreen → m.hid.down.start = true →
      ∃ m', mainStep env m = .ok m' ∧ m'.state = .UpdateAborted) := by
  refine ⟨?_, ?_, ?_⟩
  · intro m' hstep
    by_cases hc : m.state = .UpdateConfirmationScreen
    · rcases mainStep_confirmation hc hstep with ⟨-, h⟩ | ⟨-, d, -, h⟩
      · rw [hc, h]
        decide
      · rw [hc, h]
        cases d.choice.type <;> decide
    · obtain ⟨m2, h2, hstate⟩ := mainStep_state_of_not_confirmation env m hc
      rw [hstep] at h2
      cases h2
      rw [hstate]
      cases hs : m.state
      · exact absurd hs hc
      · simp only []
        split_ifs <;> rfl
      · rfl
      · rfl
      · rfl
      · simp only []
        split_ifs <;> rfl
      · rfl
      · rfl
  · intro hc start
    obtain ⟨m1, h1, hs1⟩ := mainStep_state_of_not_confirmation env m hc
    obtain ⟨m2, h2, hs2⟩ := mainStep_state_of_not_confirmation env (m.withStart start) hc
    exact ⟨m1, m2, h1, h2, by rw [hs1, hs2]; rfl⟩
  · intro hc hstart
    refine ⟨{ m with state := .UpdateAborted, ui := { m.ui with redraw := true } }, ?_, rfl⟩
    simp only [mainStep, hc, hstart, if_true]
    rfl

theorem mainStep_transitions_in_table_witness :
    allowedTransition updatingMachine.state UpdateState.UpdateComplete = true ∧
    ∃ m', mainStep sampleEnv noBackupMachine = .ok m' ∧
      allowedTransition noBackupMachine.state m'.state = true :=
  ⟨by decide,
   ⟨_, (rfl : mainStep sampleEnv noBackupMachine = .ok
      { noBackupMachine with
        updateArgs := { noBackupMachine.updateArgs with choice := noChoice },
        ui := { noBackupMachine.ui with redraw := true, selected := 0 } }),
    (mainStep_transitions_in_table sampleEnv noBackupMachine).1 _ rfl⟩⟩

/-- C10: evaluation of the code at the failing input.  From the initial screen state a
first frame without keys draws the list (one stable version, cursor 0, both offsets 1); in
the next frame `KEY_UP` and `KEY_A` are down together: the cursor is decremented to -1 and
the stable list is read at index -1. -/
theorem confirm_with_up_reads_index_minus_one :
    drawConfirmationScreen singleStableArgs false Ui.initial
        { down := noKeys, apt := [], scans := [] } =
      .ok { choice := noChoice, ui := drawnUi,
            hid := { down := noKeys, apt := [], scans := [] } } ∧
    drawConfirmationScreen singleStableArgs false drawnUi
        { down := keyUpAndA, apt := [], scans := [] } =
      .error (.outOfBounds (-1) 1) :=
  ⟨rfl, rfl⟩


end LumaUpdate
